import Mathlib

/-!
# gitlab-exporter: collector registry, orchestrator and repository collector

A shallow embedding of `collector/collector.go`, `collector/repository.go` and
the request filtering of `main.go`.

Modelling conventions.

* Go maps that are only looked up and assigned (`factories`, `collectorState`,
  `initiatedCollectors`) are functions `String → Option _`.  A `range` loop over
  such a map takes the order in which the runtime visits the keys as an explicit
  argument, because Go leaves that order unspecified and it may differ between
  two loops over the same map.
* Go maps whose length or key set is observed (`f`, `Collectors`) are
  association lists with unique keys, maintained by `mapSet`.
* Impure functions (collector factories, the remote API) are oracles.
* Goroutines that write to one channel are lists of pending sends, merged by an
  explicit schedule (`runSchedule`).
* `time.Time` and `time.Duration` are integers counting nanoseconds;
  `float64(n)` of an integer `n` and `d.Seconds()` are kept symbolic in `Value`.
-/

namespace GitlabExporter

/-! ## Values written to the metric channel -/

/-- Numeric value of a sample: `float64(n)` of an integer, or `d.Seconds()` of a
duration of `d` nanoseconds. -/
inductive Value where
  | ofInt (n : Int)
  | seconds (nanos : Int)
  deriving DecidableEq, Repr

/-- A constant metric as built by `prometheus.MustNewConstMetric(desc, GaugeValue,
value, labelValues...)`; `desc` is the fully qualified name of the descriptor. -/
structure Metric where
  desc : String
  value : Value
  labels : List String
  deriving DecidableEq, Repr

/-- Go `error` values returned by `Collector.Update`: the sentinel `ErrNoData`
(compared by identity) or any other error, carrying its message. -/
inductive GoError where
  | errNoData
  | other (msg : String)
  deriving DecidableEq, Repr

/-- The sentinel `var ErrNoData = errors.New("collector returned no data")`. -/
def ErrNoData : GoError := GoError.errNoData

/-- The function `IsNoDataError(err error) bool`, which returns `err == ErrNoData`. -/
def IsNoDataError (err : GoError) : Bool := decide (err = ErrNoData)

/-- An instance of the `Collector` interface: `addr` is the identity of the
constructed object, `Update` the observable behaviour of one call of its
`Update(ch)` method: the samples it writes to `ch`, in order, and the error it
returns (`none` is `nil`). -/
structure Collector where
  addr : Nat
  Update : List Metric × Option GoError
  deriving DecidableEq, Repr

/-! ## Association-list maps -/

/-- Go `m[k] = v` on a map kept as an association list with unique keys. -/
def mapSet {α : Type} : List (String × α) → String → α → List (String × α)
  | [], k, v => [(k, v)]
  | (k', v') :: m, k, v => if k' = k then (k, v) :: m else (k', v') :: mapSet m k v

/-- Go `v, ok := m[k]`. -/
def mapGet {α : Type} (m : List (String × α)) (k : String) : Option α :=
  (m.find? (fun kv => decide (kv.1 = k))).map Prod.snd

/-- The keys of a map. -/
def mapKeys {α : Type} (m : List (String × α)) : List String := m.map Prod.fst

/-! ## The collector registry (`collector.go`) -/

/-- A collector factory `func(logger *slog.Logger) (Collector, error)`.  The
argument is the number of factory invocations made so far by the process: a
factory may answer differently (a fresh object, an error) on every call. -/
abbrev Factory := Nat → Except String Collector

/-- The package-level variables `factories`, `collectorState` (each `*bool`
dereferenced) and `initiatedCollectors`, together with a ghost log of the
factory invocations made so far: the name and whether the call succeeded. -/
structure Registry where
  factories : String → Option Factory
  collectorState : String → Option Bool
  initiatedCollectors : String → Option Collector
  factoryLog : List (String × Bool)

/-- The state of the package-level variables before any `init` has run. -/
def Registry.initial : Registry :=
  { factories := fun _ => none
    collectorState := fun _ => none
    initiatedCollectors := fun _ => none
    factoryLog := [] }

/-- The function `registerCollector`: the flag pointer stored in
`collectorState` is read after `kingpin.Parse`, where it holds `flagValue`
when the command line sets the flag and the default otherwise. -/
def registerCollector (st : Registry) (collector : String) (isDefaultEanbled : Bool)
    (factory : Factory) (flagValue : Option Bool) : Registry :=
  { st with
    collectorState := fun k =>
      if k = collector then some (flagValue.getD isDefaultEanbled) else st.collectorState k
    factories := fun k => if k = collector then some factory else st.factories k }

/-- Errors returned by `NewGitLabCollector`, and the run-time panic of calling
a nil entry of `factories`. -/
inductive ResolveError where
  | missingCollector (name : String)
  | disabledCollector (name : String)
  | factoryError (msg : String)
  | nilFactoryPanic (name : String)
  deriving DecidableEq, Repr

/-- The text of the error, as formatted by `fmt.Errorf`. -/
def ResolveError.message : ResolveError → String
  | .missingCollector n => "missing collector: " ++ n
  | .disabledCollector n => "disabled collector : " ++ n
  | .factoryError m => m
  | .nilFactoryPanic _ => "invalid memory address or nil pointer dereference"

/-- The struct `GitLabCollector` (the logger is not modelled). -/
structure GitLabCollector where
  Collectors : List (String × Collector)
  deriving DecidableEq, Repr

/-- First loop of `NewGitLabCollector` (lines 74-85): validates the filters in
list order and builds the set `f`. -/
def checkFilters (collectorState : String → Option Bool) :
    List String → List (String × Bool) → Except ResolveError (List (String × Bool))
  | [], f => .ok f
  | filter :: rest, f =>
    match collectorState filter with
    | none => .error (.missingCollector filter)
    | some enabled =>
      if !enabled then .error (.disabledCollector filter)
      else checkFilters collectorState rest (mapSet f filter true)

/-- Go `f[key]` on a `map[string]bool`: the zero value `false` when absent. -/
def filterHas (f : List (String × Bool)) (key : String) : Bool :=
  (mapGet f key).getD false

/-- Second loop of `NewGitLabCollector` (lines 91-105), visiting the keys of
`collectorState` in the given order.  A name that is not a key of the map is
never visited. -/
def buildCollectors (f : List (String × Bool)) :
    List String → List (String × Collector) → Registry →
      Except ResolveError (List (String × Collector)) × Registry
  | [], collectors, st => (.ok collectors, st)
  | key :: rest, collectors, st =>
    match st.collectorState key with
    | none => buildCollectors f rest collectors st
    | some enabled =>
      if !enabled || (decide (f.length > 0) && !filterHas f key) then
        buildCollectors f rest collectors st
      else
        match st.initiatedCollectors key with
        | some collector => buildCollectors f rest (mapSet collectors key collector) st
        | none =>
          match st.factories key with
          | none => (.error (.nilFactoryPanic key), st)
          | some factory =>
            match factory st.factoryLog.length with
            | .error err =>
              (.error (.factoryError err),
                { st with factoryLog := st.factoryLog ++ [(key, false)] })
            | .ok collector =>
              buildCollectors f rest (mapSet collectors key collector)
                { st with
                  initiatedCollectors := fun k =>
                    if k = key then some collector else st.initiatedCollectors k
                  factoryLog := st.factoryLog ++ [(key, true)] }

/-- The function `NewGitLabCollector(logger, filters...)`; `order` is the order
in which `range collectorState` visits the keys in this call.  Returns the
result and the registry after the call. -/
def NewGitLabCollector (st : Registry) (order : List String) (filters : List String) :
    Except ResolveError GitLabCollector × Registry :=
  match checkFilters st.collectorState filters [] with
  | .error e => (.error e, st)
  | .ok f =>
    match buildCollectors f order [] st with
    | (.error e, st') => (.error e, st')
    | (.ok collectors, st') => (.ok { Collectors := collectors }, st')

/-- A list is a possible visiting order of `range m`: every key once. -/
def RangeOrder {α : Type} (m : String → Option α) (order : List String) : Prop :=
  order.Nodup ∧ ∀ k, k ∈ order ↔ (m k).isSome

/-! ### Example registry of the end-to-end scenario -/

/-- The instance built by `NewRepositoryCollector`, placed at address `addr`;
its `Update` behaviour in the scenario is irrelevant and left empty. -/
def sampleInstance (addr : Nat) : Collector := { addr := addr, Update := ([], none) }

/-- A factory that never fails and allocates a fresh object on each call. -/
def freshFactory : Factory := fun n => .ok (sampleInstance n)

/-- Registry `{repository: enabled, foo: disabled}`. -/
def scenarioRegistry : Registry :=
  registerCollector
    (registerCollector Registry.initial "repository" true freshFactory none)
    "foo" false freshFactory none

/-- Sequential calls of `NewGitLabCollector`, each with its own visiting order
and filter list; returns the results in call order and the final registry. -/
def resolveSeq : Registry → List (List String × List String) →
    List (Except ResolveError GitLabCollector) × Registry
  | st, [] => ([], st)
  | st, (order, filters) :: calls =>
    let r := NewGitLabCollector st order filters
    let rs := resolveSeq r.2 calls
    (r.1 :: rs.1, rs.2)

/-- The successes recorded in the ghost log for the factory of `name`, in
invocation order. -/
def invocationsOf (name : String) (log : List (String × Bool)) : List Bool :=
  (log.filter (fun e => decide (e.1 = name))).map Prod.snd

/-! ## Goroutines writing to one channel -/

/-- Thread `i` performs its next pending send, if it has one. -/
def stepThread {α : Type} : Nat → List (List α) → Option (α × List (List α))
  | _, [] => none
  | 0, [] :: _ => none
  | 0, (x :: t) :: ts => some (x, t :: ts)
  | i + 1, t :: ts => (stepThread i ts).map (fun r => (r.1, t :: r.2))

/-- The sequence received from a channel written by the goroutines `threads`
(each a list of pending sends): the scheduler picks the threads in the order
`sched`, a pick of a thread with nothing left is void, and the sends still
pending when the schedule ends are delivered thread by thread, since the
reader waits for every goroutine (`wg.Wait`). -/
def runSchedule {α : Type} : List Nat → List (List α) → List α
  | [], threads => threads.flatten
  | i :: sched, threads =>
    match stepThread i threads with
    | some (x, threads') => x :: runSchedule sched threads'
    | none => runSchedule sched threads

/-! ## The orchestrator (`collector.go`) -/

/-- Severity levels of `log/slog`, with their numeric values. -/
inductive LogLevel where
  | debug
  | info
  | warn
  | error
  deriving DecidableEq, Repr

/-- Numeric severity: `LevelDebug = -4`, `LevelInfo = 0`, `LevelWarn = 4`,
`LevelError = 8`. -/
def LogLevel.severity : LogLevel → Int
  | .debug => -4
  | .info => 0
  | .warn => 4
  | .error => 8

/-- The value of a log attribute: a string, `d.Seconds()` of a duration of
`d` nanoseconds, or an error. -/
inductive LogValue where
  | str (s : String)
  | seconds (nanos : Int)
  | err (e : GoError)
  deriving DecidableEq, Repr

/-- A log record: its level, its message and its attributes (key and value),
in the order of the arguments of the log call. -/
structure LogRecord where
  level : LogLevel
  msg : String
  attrs : List (String × LogValue)
  deriving DecidableEq, Repr

/-- Fully qualified name of `scrapeDurationDesc`. -/
def scrapeDurationDesc : String := "gitlab_scrape_collector_duration_seconds"

/-- Fully qualified name of `scrapeSuccessDesc`. -/
def scrapeSuccessDesc : String := "gitlab_scrape_collector_success"

/-- The log call made by `execute` (lines 133-143) for the error `err`
returned by `Update`, and the value of `success`.  The attribute keys are those
of the source, the key `duration_secionds` of line 137 included. -/
def executeOutcome (name : String) (duration : Int) (err : Option GoError) : LogRecord × Int :=
  match err with
  | some e =>
    if IsNoDataError e then
      ({ level := .debug, msg := "collector returned no data",
         attrs := [("name", .str name), ("duration_seconds", .seconds duration),
                   ("err", .err e)] }, 0)
    else
      ({ level := .debug, msg := "collector failed",
         attrs := [("name", .str name), ("duration_secionds", .seconds duration),
                   ("err", .err e)] }, 0)
  | none =>
    ({ level := .debug, msg := "collector succeeded",
       attrs := [("name", .str name), ("duration_seconds", .seconds duration)] }, 1)

/-- The function `execute(name, c, ch, logger)`: `duration` is the value of
`time.Since(begin)`.  Returns the samples written to `ch`, in order, and the
log record emitted. -/
def execute (name : String) (c : Collector) (duration : Int) : List Metric × LogRecord :=
  let (samples, err) := c.Update
  let (record, success) := executeOutcome name duration err
  (samples ++
    [{ desc := scrapeDurationDesc, value := .seconds duration, labels := [name] },
     { desc := scrapeSuccessDesc, value := .ofInt success, labels := [name] }],
   record)

/-- The goroutines started by `GitLabCollector.Collect`, one per entry of
`n.Collectors`: the sends of each. `elapsed name` is the duration measured for
collector `name`. -/
def collectThreads (n : GitLabCollector) (elapsed : String → Int) : List (List Metric) :=
  n.Collectors.map (fun nc => (execute nc.1 nc.2 (elapsed nc.1)).1)

/-- The method `GitLabCollector.Collect(ch)`: the samples received on `ch` when
the goroutines are scheduled by `sched`. -/
def Collect (n : GitLabCollector) (elapsed : String → Int) (sched : List Nat) : List Metric :=
  runSchedule sched (collectThreads n elapsed)

/-! ## The repository collector (`repository.go`)

The pointer `project.Statistics`, which GitLab leaves nil when the token may
not read the statistics of a project, and the pointers `mr.MergedAt` and
`mr.ClosedAt` are options; the code checks the last two and not the first.
The pointers `project` and `mr.CreatedAt`, which every answer of the API sets,
are modelled by the value pointed to. -/

/-- The part of `gitlab.Statistics` that is read. -/
structure Statistics where
  RepositorySize : Int
  deriving DecidableEq, Repr

/-- The part of `gitlab.Project` that is read. -/
structure Project where
  ID : Int
  Name : String
  Path : String
  Statistics : Option Statistics
  deriving DecidableEq, Repr

/-- The part of `gitlab.MergeRequest` that is read; times in nanoseconds. -/
structure MergeRequest where
  CreatedAt : Int
  MergedAt : Option Int
  ClosedAt : Option Int
  deriving DecidableEq, Repr

/-- A commit of `gitlab.Commit`; only the number of commits is observed. -/
structure Commit where
  ID : String
  deriving DecidableEq, Repr

/-- The pagination fields of `gitlab.Response` that are read. -/
structure Response where
  TotalPages : Int
  TotalItems : Int
  deriving DecidableEq, Repr

/-- The answers of the remote API during one run of `Update`:
`probe` for the first `ListProjects` call (page 1, without statistics),
`listProjects page` for the call made by the goroutine of `page`,
`listMergeRequests projectID createdAfter` and
`listCommits projectID since until` for the two calls made per project. -/
structure Remote where
  probe : Except String Response
  listProjects : Int → Except String (List Project)
  listMergeRequests : String → Int → Except String (List MergeRequest)
  listCommits : String → Int → Int → Except String (List Commit)

/-- The duration `time.Hour` in nanoseconds. -/
def hour : Int := 3600 * 1000000000

/-- The duration `time.Minute` in nanoseconds. -/
def minute : Int := 60 * 1000000000

/-- The method `t.After(u)` of `time.Time`. -/
def After (t u : Int) : Bool := decide (u < t)

/-- The loop over `mrs` (lines 111-121), on the counters
`(createdMRs, mergedMRs, closedMRs)`. -/
def countMergeRequests (lastHour : Int) : List MergeRequest → Nat × Nat × Nat → Nat × Nat × Nat
  | [], counters => counters
  | mr :: mrs, (createdMRs, mergedMRs, closedMRs) =>
    let createdMRs := if After mr.CreatedAt lastHour then createdMRs + 1 else createdMRs
    let mergedMRs :=
      match mr.MergedAt with
      | some t => if After t lastHour then mergedMRs + 1 else mergedMRs
      | none => mergedMRs
    let closedMRs :=
      match mr.ClosedAt with
      | some t => if After t lastHour then closedMRs + 1 else closedMRs
      | none => closedMRs
    countMergeRequests lastHour mrs (createdMRs, mergedMRs, closedMRs)

/-- Descriptor names of the five project metrics. -/
def projectSizeDesc : String := "gitlab_project_size_bytes"

/-- Name of `createdMRDesc`. -/
def createdMRDesc : String := "gitlab_project_created_merge_requests_last_hour_total"

/-- Name of `mergedMRDesc`. -/
def mergedMRDesc : String := "gitlab_project_merged_merge_requests_last_hour_total"

/-- Name of `closedMRDesc`. -/
def closedMRDesc : String := "gitlab_project_closed_merge_requests_last_hour_total"

/-- Name of `commitsDesc`. -/
def commitsDesc : String := "gitlab_project_commits_last_hour_total"

/-- The goroutine started for one project (lines 77-148): the samples it writes
to `ch`, in order, or `none` when it panics: line 86 dereferences
`project.Statistics` before the first send.  Its two inner goroutines write
disjoint variables and are both awaited, so their interleaving is not
observable. -/
def processProject (remote : Remote) (now lastHour : Int) (project : Project) :
    Option (List Metric) :=
  let projectID := toString project.ID
  match project.Statistics with
  | none => none
  | some statistics =>
    let counters :=
      match remote.listMergeRequests projectID lastHour with
      | .error _ => (0, 0, 0)
      | .ok mrs => countMergeRequests lastHour mrs (0, 0, 0)
    let commits :=
      match remote.listCommits projectID lastHour now with
      | .error _ => 0
      | .ok commitList => commitList.length
    let labels := [projectID, project.Name, project.Path]
    some
      [{ desc := projectSizeDesc, value := .ofInt statistics.RepositorySize, labels := labels },
       { desc := createdMRDesc, value := .ofInt counters.1, labels := labels },
       { desc := mergedMRDesc, value := .ofInt counters.2.1, labels := labels },
       { desc := closedMRDesc, value := .ofInt counters.2.2, labels := labels },
       { desc := commitsDesc, value := .ofInt commits, labels := labels }]

/-- The project goroutines of one run: the sends of each, or `none` when one
of them panics, which ends the process. -/
def projectThreads (remote : Remote) (now lastHour : Int) :
    List Project → Option (List (List Metric))
  | [] => some []
  | project :: rest =>
    match processProject remote now lastHour project with
    | none => none
    | some samples =>
      match projectThreads remote now lastHour rest with
      | none => none
      | some threads => some (samples :: threads)

/-- The pages visited by `for page := 1; page <= totalPages; page++`. -/
def pagesOf (totalPages : Int) : List Int :=
  (List.range totalPages.toNat).map (fun (i : Nat) => (i : Int) + 1)

/-- The goroutine of one page (lines 39-50): it sends its slice, or nothing
when the fetch fails. -/
def pageThread (remote : Remote) (page : Int) : List (List Project) :=
  match remote.listProjects page with
  | .error _ => []
  | .ok projects => [projects]

/-- Lines 37-62: the slices received on `projectChannel` under the schedule
`sched`, appended to `allProjects` in order of arrival. -/
def fanIn (remote : Remote) (totalPages : Int) (sched : List Nat) : List Project :=
  (runSchedule sched ((pagesOf totalPages).map (pageThread remote))).flatten

/-- How a call of `Update` ends: `log.Fatalf` exits the process, a run-time
panic, or a normal return with the samples written to `ch`. -/
inductive UpdateResult where
  | fatal
  | panic
  | returned (err : Option GoError) (samples : List Metric)
  deriving DecidableEq, Repr

/-- The largest capacities for which the two `make` calls of `Update` succeed
on the machine that runs it: `make([]*gitlab.Project, 0, n)` and
`make(chan []*gitlab.Project, n)`.  The Go runtime fixes them from the size of
the address space and of the element. -/
structure Limits where
  maxSliceCap : Int
  maxChanCap : Int
  deriving DecidableEq, Repr

/-- Whether `make` accepts the capacity `n`: it panics when `n` is negative or
out of range. -/
def makeAccepts (maxCap n : Int) : Bool := decide (0 ≤ n) && decide (n ≤ maxCap)

/-- The method `repositoryCollector.Update(ch)` at time `now`, with the page
goroutines scheduled by `pageSched` and the project goroutines by `projSched`. -/
def Update (limits : Limits) (remote : Remote) (now : Int) (pageSched projSched : List Nat) :
    UpdateResult :=
  match remote.probe with
  | .error _ => .fatal
  | .ok resp =>
    let totalPages := resp.TotalPages
    if !makeAccepts limits.maxSliceCap resp.TotalItems then .panic
    else if !makeAccepts limits.maxChanCap totalPages then .panic
    else
      let allProjects := fanIn remote totalPages pageSched
      let lastHour := now - hour
      match projectThreads remote now lastHour allProjects with
      | none => .panic
      | some threads => .returned none (runSchedule projSched threads)

/-! ## Request filtering (`main.go`) -/

/-- The fields of `handler` that take part in filtering: the collector served
by `unfilteredHandler`, and `enabledCollectors`. -/
structure handler where
  unfilteredHandler : GitLabCollector
  enabledCollectors : List String
  deriving DecidableEq, Repr

/-- Go `a <= b` on strings: bytewise lexicographic order, which on UTF-8 is the
lexicographic order of the code points. -/
def stringLE (a b : String) : Prop := ¬ b.data < a.data

instance : DecidableRel stringLE := fun a b => inferInstanceAs (Decidable (¬ b.data < a.data))

/-- The function `sort.Strings`. -/
def sortStrings (l : List String) : List String :=
  l.insertionSort stringLE

/-- The function `slices.Index(s, v)`: the first index of `v`, or `-1`. -/
def slicesIndex : List String → String → Int
  | [], _ => -1
  | x :: s, v => if x = v then 0 else
    let i := slicesIndex s v
    if i = -1 then -1 else i + 1

/-- The method `innerHandler(filters...)`: the collector registered in the
returned handler, or the error; with the `handler` and the registry after the
call.  Registering the collector in a fresh Prometheus registry succeeds. -/
def innerHandler (enabledCollectors : List String) (st : Registry) (order filters : List String) :
    Except String GitLabCollector × List String × Registry :=
  match NewGitLabCollector st order filters with
  | (.error err, st') => (.error ("couldn't created collector : " ++ err.message),
      enabledCollectors, st')
  | (.ok nc, st') =>
    let enabledCollectors :=
      if filters.length = 0 then sortStrings (enabledCollectors ++ mapKeys nc.Collectors)
      else enabledCollectors
    (.ok nc, enabledCollectors, st')

/-- The function `newHandler`: `none` when it panics. -/
def newHandler (st : Registry) (order : List String) : Option (handler × Registry) :=
  match innerHandler [] st order [] with
  | (.error _, _, _) => none
  | (.ok nc, enabledCollectors, st') =>
    some ({ unfilteredHandler := nc, enabledCollectors := enabledCollectors }, st')

/-- What `ServeHTTP` answers: status 400 with a body, or the metrics gathered
from the collector `nc`, whose `Collect` runs every entry of `nc.Collectors`. -/
inductive Served where
  | badRequest (body : String)
  | metrics (nc : GitLabCollector)
  deriving DecidableEq, Repr

/-- The loop of lines 74-79: the enabled collectors not found in `excludes`. -/
def excludeFilter (excludes : List String) : List String → List String
  | [] => []
  | c :: rest =>
    if slicesIndex excludes c = -1 then c :: excludeFilter excludes rest
    else excludeFilter excludes rest

/-- The method `ServeHTTP`, on the values of the query parameters `collect[]`
and `exclude[]`. -/
def ServeHTTP (h : handler) (st : Registry) (order collects excludes : List String) :
    Served × handler × Registry :=
  if collects.length = 0 ∧ excludes.length = 0 then
    (.metrics h.unfilteredHandler, h, st)
  else if collects.length > 0 ∧ excludes.length > 0 then
    (.badRequest "Combined collect and exclude queries are not allowed", h, st)
  else
    let filters :=
      if excludes.length > 0 then excludeFilter excludes h.enabledCollectors else collects
    match innerHandler h.enabledCollectors st order filters with
    | (.error err, enabled, st') =>
      (.badRequest ("Couldn't created filtered metrics handler : " ++ err),
        { h with enabledCollectors := enabled }, st')
    | (.ok nc, enabled, st') => (.metrics nc, { h with enabledCollectors := enabled }, st')

/-- The names of the collectors run for a request. -/
def Served.ran : Served → List String
  | .badRequest _ => []
  | .metrics nc => mapKeys nc.Collectors

/-! ## Specification-side definitions and example inputs -/

/-- The duration sample of collector `name`. -/
def durationSample (name : String) (duration : Int) : Metric :=
  { desc := scrapeDurationDesc, value := .seconds duration, labels := [name] }

/-- The success sample of collector `name`. -/
def successSample (name : String) (success : Int) : Metric :=
  { desc := scrapeSuccessDesc, value := .ofInt success, labels := [name] }

/-- In the words of the spec: the own samples of a collector and its two
meta-metrics, success being 1 exactly when `Update` returned nil. -/
def ownAndMeta (name : String) (c : Collector) (duration : Int) : Multiset Metric :=
  (c.Update.1 : Multiset Metric) +
    {durationSample name duration, successSample name (if c.Update.2 = none then 1 else 0)}

/-- In the words of the spec: created strictly after the window start. -/
def createdInWindow (lastHour : Int) (mr : MergeRequest) : Bool :=
  decide (lastHour < mr.CreatedAt)

/-- In the words of the spec: merge time non-null and strictly after the window
start. -/
def mergedInWindow (lastHour : Int) (mr : MergeRequest) : Bool :=
  match mr.MergedAt with
  | some t => decide (lastHour < t)
  | none => false

/-- In the words of the spec: close time non-null and strictly after the window
start. -/
def closedInWindow (lastHour : Int) (mr : MergeRequest) : Bool :=
  match mr.ClosedAt with
  | some t => decide (lastHour < t)
  | none => false

/-- A failed fetch counts as an empty list. -/
def orEmpty {α : Type} : Except String (List α) → List α
  | .ok l => l
  | .error _ => []

/-- In the words of the spec: the five samples of one project whose repository
size is `size`. -/
def projectSamples (project : Project) (size : Int) (mrs : List MergeRequest)
    (commits : List Commit) (lastHour : Int) : List Metric :=
  let labels := [toString project.ID, project.Name, project.Path]
  [{ desc := projectSizeDesc, value := .ofInt size, labels := labels },
   { desc := createdMRDesc, value := .ofInt (mrs.countP (createdInWindow lastHour)),
     labels := labels },
   { desc := mergedMRDesc, value := .ofInt (mrs.countP (mergedInWindow lastHour)),
     labels := labels },
   { desc := closedMRDesc, value := .ofInt (mrs.countP (closedInWindow lastHour)),
     labels := labels },
   { desc := commitsDesc, value := .ofInt commits.length, labels := labels }]

/-- In the words of the spec: the samples of a project that carries statistics,
its sub-fetches answered by `remote`; none for a project without statistics. -/
def samplesOf (remote : Remote) (now : Int) (project : Project) : List Metric :=
  match project.Statistics with
  | none => []
  | some statistics =>
    projectSamples project statistics.RepositorySize
      (orEmpty (remote.listMergeRequests (toString project.ID) (now - hour)))
      (orEmpty (remote.listCommits (toString project.ID) (now - hour) now)) (now - hour)

/-- The slices of the pages `1..totalPages` whose fetch succeeded, in page
order. -/
def successfulPages (remote : Remote) (totalPages : Int) : List (List Project) :=
  (pagesOf totalPages).filterMap (fun page =>
    match remote.listProjects page with
    | .ok projects => some projects
    | .error _ => none)

/-- The time of the example runs. -/
def exampleNow : Int := 1000 * hour

/-- The project of the end-to-end scenario. -/
def demoProject : Project :=
  { ID := 42, Name := "demo", Path := "demo", Statistics := some { RepositorySize := 1024 } }

/-- Remote of the end-to-end scenario: one page holding `demoProject`, one merge
request created 20 minutes ago and neither merged nor closed, two commits. -/
def demoRemote : Remote :=
  { probe := .ok { TotalPages := 1, TotalItems := 1 }
    listProjects := fun _ => .ok [demoProject]
    listMergeRequests := fun _ _ =>
      .ok [{ CreatedAt := exampleNow - 20 * minute, MergedAt := none, ClosedAt := none }]
    listCommits := fun _ _ _ => .ok [{ ID := "c1" }, { ID := "c2" }] }

/-- Project number `i`, of an empty repository. -/
def numberedProject (i : Int) : Project :=
  { ID := i, Name := "p", Path := "p", Statistics := some { RepositorySize := 0 } }

/-- Remote with five pages of one project each, the fetch of page 3 failing,
and every sub-fetch failing. -/
def fivePageRemote : Remote :=
  { probe := .ok { TotalPages := 5, TotalItems := 5 }
    listProjects := fun page =>
      if page = 3 then .error "503" else .ok [numberedProject page]
    listMergeRequests := fun _ _ => .error "503"
    listCommits := fun _ _ _ => .error "503" }

/-- A machine on which `make` succeeds up to a million elements. -/
def exampleLimits : Limits := { maxSliceCap := 1000000, maxChanCap := 1000000 }

/-- A project that the API returns without statistics. -/
def bareProject : Project := { ID := 7, Name := "bare", Path := "bare", Statistics := none }

/-- Remote with one page holding `demoProject` and `bareProject`. -/
def bareRemote : Remote :=
  { demoRemote with
    probe := .ok { TotalPages := 1, TotalItems := 2 }
    listProjects := fun _ => .ok [demoProject, bareProject] }

/-- The remote `fivePageRemote` with a probe that reports a negative number of
items. -/
def negativeItemsRemote : Remote :=
  { fivePageRemote with probe := .ok { TotalPages := 5, TotalItems := -1 } }

/-- Registry with the single enabled collector `repository`, whose factory
always fails. -/
def failingRegistry : Registry :=
  registerCollector Registry.initial "repository" true (fun _ => .error "boom") none

/-- Registry with the single enabled collector `repository`, whose factory
fails on the first factory invocation of the process and succeeds afterwards,
building a fresh object. -/
def flakyRegistry : Registry :=
  registerCollector Registry.initial "repository" true
    (fun n => if n = 0 then .error "boom" else .ok (sampleInstance n)) none

/-- Three calls on the one-collector registries: unfiltered, filtered by
`repository`, unfiltered. -/
def threeCalls : List (List String × List String) :=
  [(["repository"], []), (["repository"], ["repository"]), (["repository"], [])]

/-- Invariant of the ghost log: for every name, every invocation of its
factory but the last returned an error, and all of them did while the name is
not in the instance cache. -/
def LogInv (st : Registry) : Prop :=
  ∀ name, (st.initiatedCollectors name = none →
      ∀ b ∈ invocationsOf name st.factoryLog, b = false) ∧
    ∀ b ∈ (invocationsOf name st.factoryLog).dropLast, b = false

/-- A call ended on the factory of a name other than `key`: on its error,
logged last, or on the panic of a nil factory. -/
def EndsOnOther {α : Type} (key : String) (r : Except ResolveError α × Registry) : Prop :=
  ∃ k, k ≠ key ∧
    (r.1 = .error (.nilFactoryPanic k) ∨
      ∃ msg log, r.1 = .error (.factoryError msg) ∧ r.2.factoryLog = log ++ [(k, false)])

/-- A call invoked the factory of `key` exactly once, from the registry `st`. -/
def InvokedOnce {α : Type} (key : String) (st : Registry)
    (r : Except ResolveError α × Registry) : Prop :=
  ∃ b, invocationsOf key r.2.factoryLog = invocationsOf key st.factoryLog ++ [b]

/-! ## Theorems: registry -/

theorem checkFilters_error_of_find (cs : String → Option Bool) :
    ∀ (filters : List String) (f : List (String × Bool)) (n : String),
      filters.find? (fun x => decide (cs x ≠ some true)) = some n →
      checkFilters cs filters f =
        .error (if cs n = none then .missingCollector n else .disabledCollector n) := by
  intro filters
  induction filters with
  | nil => intro f n h; simp at h
  | cons a rest ih =>
    intro f n h
    rw [List.find?_cons] at h
    cases hcs : cs a with
    | none =>
      simp [hcs] at h
      subst h
      simp [checkFilters, hcs]
    | some b =>
      cases b with
      | false =>
        simp [hcs] at h
        subst h
        simp [checkFilters, hcs]
      | true =>
        simp [hcs] at h
        simp only [checkFilters, hcs]
        simpa using ih (mapSet f a true) n (by simpa using h)

/-! ### Association lists -/

theorem mapGet_mapSet {α : Type} (k : String) (v : α) :
    ∀ (m : List (String × α)) (k' : String),
      mapGet (mapSet m k v) k' = if k' = k then some v else mapGet m k' := by
  intro m
  induction m with
  | nil =>
    intro k'
    by_cases h : k = k'
    · subst h; simp [mapSet, mapGet]
    · have h' : ¬ k' = k := fun e => h e.symm
      simp [mapSet, mapGet, h, h']
  | cons kv m ih =>
    intro k'
    obtain ⟨a, b⟩ := kv
    by_cases hak : a = k
    · subst hak
      by_cases h : k' = a
      · subst h; simp [mapSet, mapGet]
      · have h' : ¬ a = k' := fun e => h e.symm
        simp [mapSet, mapGet, h, h']
    · have ih' := ih k'
      simp only [mapGet] at ih'
      by_cases h : a = k'
      · subst h
        simp [mapSet, mapGet, hak]
      · simp only [mapSet, hak, if_false, mapGet, List.find?_cons, h, decide_False]
        exact ih'

theorem mem_mapKeys_mapSet {α : Type} (k : String) (v : α) :
    ∀ (m : List (String × α)) (k' : String),
      k' ∈ mapKeys (mapSet m k v) ↔ k' = k ∨ k' ∈ mapKeys m := by
  intro m
  induction m with
  | nil => intro k'; simp [mapSet, mapKeys]
  | cons kv m ih =>
    intro k'
    obtain ⟨a, b⟩ := kv
    have ih' := ih k'
    simp only [mapKeys] at ih'
    by_cases hak : a = k
    · subst hak; simp [mapSet, mapKeys]
    · simp only [mapSet, hak, if_false, mapKeys, List.map_cons, List.mem_cons, ih']
      tauto

theorem nodup_mapKeys_mapSet {α : Type} (k : String) (v : α) :
    ∀ (m : List (String × α)), (mapKeys m).Nodup → (mapKeys (mapSet m k v)).Nodup := by
  intro m
  induction m with
  | nil => intro _; simp [mapSet, mapKeys]
  | cons kv m ih =>
    intro h
    obtain ⟨a, b⟩ := kv
    by_cases hak : a = k
    · subst hak; simpa [mapSet, mapKeys] using h
    · simp only [mapKeys, List.map_cons, List.nodup_cons] at h
      have hmem := mem_mapKeys_mapSet k v m a
      simp only [mapSet, hak, if_false, mapKeys, List.map_cons, List.nodup_cons]
      refine ⟨?_, ih h.2⟩
      intro hin
      rcases hmem.mp hin with e | e
      · exact hak e
      · exact h.1 e

theorem mapGet_isSome_iff {α : Type} :
    ∀ (m : List (String × α)) (k : String), (∃ v, mapGet m k = some v) ↔ k ∈ mapKeys m := by
  intro m
  induction m with
  | nil => intro k; simp [mapGet, mapKeys]
  | cons kv m ih =>
    intro k
    obtain ⟨a, b⟩ := kv
    have ih' := ih k
    simp only [mapGet, mapKeys] at ih'
    by_cases h : a = k
    · subst h; simp [mapGet, mapKeys]
    · have h' : ¬ k = a := fun e => h e.symm
      simp only [mapGet, List.find?_cons, h, decide_False, mapKeys, List.map_cons,
        List.mem_cons, h', false_or]
      exact ih'

theorem filterHas_mapSet (f : List (String × Bool)) (a k : String) :
    filterHas (mapSet f a true) k = true ↔ k = a ∨ filterHas f k = true := by
  simp only [filterHas, mapGet_mapSet]
  by_cases h : k = a <;> simp [h]

theorem length_mapSet_pos {α : Type} (k : String) (v : α) (m : List (String × α)) :
    0 < (mapSet m k v).length := by
  cases m with
  | nil => simp [mapSet]
  | cons kv m =>
    obtain ⟨a, b⟩ := kv
    simp only [mapSet]
    split <;> simp

/-! ### The two loops of `NewGitLabCollector` -/

theorem checkFilters_ok (cs : String → Option Bool) :
    ∀ (filters : List String) (f : List (String × Bool)),
      (∀ n ∈ filters, cs n = some true) →
      ∃ f', checkFilters cs filters f = .ok f' ∧
        (∀ k, filterHas f' k = true ↔ filterHas f k = true ∨ k ∈ filters) ∧
        (0 < f'.length ↔ 0 < f.length ∨ filters ≠ []) := by
  intro filters
  induction filters with
  | nil => intro f _; exact ⟨f, rfl, by simp, by simp⟩
  | cons a rest ih =>
    intro f h
    have ha : cs a = some true := h a (List.mem_cons_self _ _)
    obtain ⟨f', hf', hmem, hlen⟩ :=
      ih (mapSet f a true) (fun n hn => h n (List.mem_cons_of_mem _ hn))
    refine ⟨f', by simp [checkFilters, ha, hf'], ?_, ?_⟩
    · intro k
      rw [hmem, filterHas_mapSet, List.mem_cons]
      tauto
    · have := length_mapSet_pos a true f
      simp only [hlen, ne_eq, reduceCtorEq, not_false_eq_true, or_true, iff_true]
      exact Or.inl this

theorem buildCollectors_ok (f : List (String × Bool)) :
    ∀ (keys : List String) (cols : List (String × Collector)) (st : Registry),
      (∀ k, st.collectorState k = some true → (f.length = 0 ∨ filterHas f k = true) →
          st.initiatedCollectors k = none →
          ∃ fac, st.factories k = some fac ∧ ∀ i, ∃ c, fac i = .ok c) →
      ∃ cols' st', buildCollectors f keys cols st = (.ok cols', st') ∧
        (∀ k, k ∈ mapKeys cols' ↔
          k ∈ mapKeys cols ∨ (k ∈ keys ∧ st.collectorState k = some true ∧
            (f.length = 0 ∨ filterHas f k = true))) ∧
        ((mapKeys cols).Nodup → (mapKeys cols').Nodup) := by
  intro keys
  induction keys with
  | nil => intro cols st _; exact ⟨cols, st, rfl, by simp, id⟩
  | cons key rest ih =>
    intro cols st hfac
    cases hcs : st.collectorState key with
    | none =>
      obtain ⟨cols', st', hb, hk, hn⟩ := ih cols st hfac
      refine ⟨cols', st', by simp only [buildCollectors, hcs]; exact hb, ?_, hn⟩
      intro k
      rw [hk, List.mem_cons]
      constructor
      · rintro (h | ⟨h1, h2, h3⟩)
        · exact Or.inl h
        · exact Or.inr ⟨Or.inr h1, h2, h3⟩
      · rintro (h | ⟨h1 | h1, h2, h3⟩)
        · exact Or.inl h
        · subst h1; rw [hcs] at h2; cases h2
        · exact Or.inr ⟨h1, h2, h3⟩
    | some enabled =>
      by_cases hskip : (!enabled || (decide (f.length > 0) && !filterHas f key)) = true
      · obtain ⟨cols', st', hb, hk, hn⟩ := ih cols st hfac
        refine ⟨cols', st', by simp only [buildCollectors, hcs, hskip, if_true]; exact hb, ?_, hn⟩
        intro k
        rw [hk, List.mem_cons]
        constructor
        · rintro (h | ⟨h1, h2, h3⟩)
          · exact Or.inl h
          · exact Or.inr ⟨Or.inr h1, h2, h3⟩
        · rintro (h | ⟨h1 | h1, h2, h3⟩)
          · exact Or.inl h
          · subst h1
            rw [hcs] at h2
            simp only [Option.some.injEq] at h2
            subst h2
            exfalso
            rcases h3 with h3 | h3
            · simp [h3] at hskip
            · simp [h3] at hskip
          · exact Or.inr ⟨h1, h2, h3⟩
      · have hen : enabled = true := by
          cases enabled
          · simp at hskip
          · rfl
        subst hen
        have hsel : f.length = 0 ∨ filterHas f key = true := by
          by_cases hl : f.length = 0
          · exact Or.inl hl
          · right
            have : 0 < f.length := Nat.pos_of_ne_zero hl
            cases hfh : filterHas f key
            · simp [this, hfh] at hskip
            · rfl
        cases hcache : st.initiatedCollectors key with
        | some c =>
          obtain ⟨cols', st', hb, hk, hn⟩ := ih (mapSet cols key c) st hfac
          refine ⟨cols', st', ?_, ?_, fun h => hn (nodup_mapKeys_mapSet key c cols h)⟩
          · simp only [buildCollectors, hcs, hskip, hcache]
            exact hb
          · intro k
            rw [hk, mem_mapKeys_mapSet, List.mem_cons]
            constructor
            · rintro ((h | h) | ⟨h1, h2, h3⟩)
              · subst h; exact Or.inr ⟨Or.inl rfl, hcs, hsel⟩
              · exact Or.inl h
              · exact Or.inr ⟨Or.inr h1, h2, h3⟩
            · rintro (h | ⟨h1 | h1, h2, h3⟩)
              · exact Or.inl (Or.inr h)
              · exact Or.inl (Or.inl h1)
              · exact Or.inr ⟨h1, h2, h3⟩
        | none =>
          obtain ⟨fac, hfk, hall⟩ := hfac key hcs hsel hcache
          obtain ⟨c, hc⟩ := hall st.factoryLog.length
          obtain ⟨cols', st', hb, hk, hn⟩ := ih (mapSet cols key c)
            { st with
              initiatedCollectors := fun k =>
                if k = key then some c else st.initiatedCollectors k
              factoryLog := st.factoryLog ++ [(key, true)] }
            (by
              intro k h1 h2 h3
              by_cases hkk : k = key
              · simp [hkk] at h3
              · simp only [hkk, if_false] at h3
                exact hfac k h1 h2 h3)
          refine ⟨cols', st', ?_, ?_, fun h => hn (nodup_mapKeys_mapSet key c cols h)⟩
          · simp only [buildCollectors, hcs, hskip, hcache, hfk, hc]
            exact hb
          · intro k
            rw [hk, mem_mapKeys_mapSet, List.mem_cons]
            constructor
            · rintro ((h | h) | ⟨h1, h2, h3⟩)
              · subst h; exact Or.inr ⟨Or.inl rfl, hcs, hsel⟩
              · exact Or.inl h
              · exact Or.inr ⟨Or.inr h1, h2, h3⟩
            · rintro (h | ⟨h1 | h1, h2, h3⟩)
              · exact Or.inl (Or.inr h)
              · exact Or.inl (Or.inl h1)
              · exact Or.inr ⟨h1, h2, h3⟩

/-- C1: if some filter name is unregistered or registered-but-disabled, then
`NewGitLabCollector` returns an error and no collector set; the error is the
missing-collector error when the first offending name in list order is
unregistered and the disabled-collector error when it is registered but
disabled; the registry (instance cache and log of factory invocations) is
returned unchanged, so no factory is invoked. -/
theorem resolve_rejects_unknown_or_disabled (st : Registry) (order filters : List String)
    (h : ∃ n ∈ filters, st.collectorState n = none ∨ st.collectorState n = some false) :
    ∃ n, filters.find? (fun x => decide (st.collectorState x ≠ some true)) = some n ∧
      (st.collectorState n = none →
        NewGitLabCollector st order filters = (.error (.missingCollector n), st)) ∧
      (st.collectorState n = some false →
        NewGitLabCollector st order filters = (.error (.disabledCollector n), st)) ∧
      (∃ e, NewGitLabCollector st order filters = (.error e, st)) := by
  obtain ⟨m, hm, hbad⟩ := h
  have hsome : (filters.find? (fun x => decide (st.collectorState x ≠ some true))).isSome := by
    rw [List.find?_isSome]
    refine ⟨m, hm, ?_⟩
    rcases hbad with hb | hb <;> simp [hb]
  obtain ⟨n, hn⟩ := Option.isSome_iff_exists.mp hsome
  have hc := checkFilters_error_of_find st.collectorState filters [] n hn
  refine ⟨n, hn, ?_, ?_, ?_⟩
  · intro h0
    simp [NewGitLabCollector, hc, h0]
  · intro h0
    simp [NewGitLabCollector, hc, h0]
  · simp only [NewGitLabCollector, hc]
    exact ⟨_, rfl⟩

/-- Witness of C1 on the end-to-end scenario: `Resolve(["bar"])`. -/
theorem resolve_rejects_unknown_or_disabled_witness :
    (∃ n ∈ ["bar"], scenarioRegistry.collectorState n = none ∨
        scenarioRegistry.collectorState n = some false) ∧
    ∃ n, ["bar"].find? (fun x => decide (scenarioRegistry.collectorState x ≠ some true)) = some n ∧
      (scenarioRegistry.collectorState n = none →
        NewGitLabCollector scenarioRegistry ["foo", "repository"] ["bar"] =
          (.error (.missingCollector n), scenarioRegistry)) ∧
      (scenarioRegistry.collectorState n = some false →
        NewGitLabCollector scenarioRegistry ["foo", "repository"] ["bar"] =
          (.error (.disabledCollector n), scenarioRegistry)) ∧
      (∃ e, NewGitLabCollector scenarioRegistry ["foo", "repository"] ["bar"] =
          (.error e, scenarioRegistry)) :=
  ⟨⟨"bar", by simp, Or.inl (by decide)⟩,
   resolve_rejects_unknown_or_disabled scenarioRegistry ["foo", "repository"] ["bar"]
     ⟨"bar", by simp, Or.inl (by decide)⟩⟩

/-- C2: when every needed factory succeeds and every name of the filter list
is registered and enabled, `NewGitLabCollector` returns a collector set whose
key set is exactly the set of enabled registered names when the filter list is
empty, and exactly the set of names of the filter list (each once) when it is
not. -/
theorem resolve_key_set (st : Registry) (order filters : List String)
    (horder : RangeOrder st.collectorState order)
    (hfilters : ∀ n ∈ filters, st.collectorState n = some true)
    (hfac : ∀ k, st.collectorState k = some true → (filters = [] ∨ k ∈ filters) →
      st.initiatedCollectors k = none →
      ∃ fac, st.factories k = some fac ∧ ∀ i, ∃ c, fac i = .ok c) :
    ∃ nc st', NewGitLabCollector st order filters = (.ok nc, st') ∧
      (mapKeys nc.Collectors).Nodup ∧
      (filters = [] → ∀ k, k ∈ mapKeys nc.Collectors ↔ st.collectorState k = some true) ∧
      (filters ≠ [] → ∀ k, k ∈ mapKeys nc.Collectors ↔ k ∈ filters) := by
  obtain ⟨f, hf, hmem, hlen⟩ := checkFilters_ok st.collectorState filters [] hfilters
  have hmem' : ∀ k, filterHas f k = true ↔ k ∈ filters := by
    intro k
    rw [hmem]
    simp [filterHas, mapGet]
  have hlen' : f.length = 0 ↔ filters = [] := by
    have : 0 < f.length ↔ filters ≠ [] := by simpa using hlen
    constructor
    · intro h0
      by_contra hne
      have := this.mpr hne
      omega
    · intro h0
      by_contra hne
      exact (this.mp (Nat.pos_of_ne_zero hne)) h0
  obtain ⟨cols, st', hb, hk, hn⟩ := buildCollectors_ok f order [] st (by
    intro k h1 h2 h3
    refine hfac k h1 ?_ h3
    rcases h2 with h2 | h2
    · exact Or.inl (hlen'.mp h2)
    · exact Or.inr ((hmem' k).mp h2))
  have hin : ∀ k, st.collectorState k = some true → k ∈ order := by
    intro k hk'
    exact (horder.2 k).mpr (by simp [hk'])
  refine ⟨{ Collectors := cols }, st', ?_, hn (by simp [mapKeys]), ?_, ?_⟩
  · simp only [NewGitLabCollector, hf, hb]
  · intro hnil k
    rw [hk]
    simp only [mapKeys, List.map_nil, List.not_mem_nil, false_or]
    constructor
    · rintro ⟨_, h2, _⟩
      exact h2
    · intro h2
      exact ⟨hin k h2, h2, Or.inl (hlen'.mpr hnil)⟩
  · intro hne k
    rw [hk]
    simp only [mapKeys, List.map_nil, List.not_mem_nil, false_or]
    constructor
    · rintro ⟨_, _, h3 | h3⟩
      · exact absurd (hlen'.mp h3) hne
      · exact (hmem' k).mp h3
    · intro h
      exact ⟨hin k (hfilters k h), hfilters k h, Or.inr ((hmem' k).mpr h)⟩

theorem scenario_rangeOrder : RangeOrder scenarioRegistry.collectorState ["foo", "repository"] := by
  refine ⟨by decide, ?_⟩
  intro k
  simp only [scenarioRegistry, registerCollector, Registry.initial, List.mem_cons,
    List.mem_singleton, List.not_mem_nil, or_false]
  by_cases h1 : k = "foo"
  · simp [h1]
  · by_cases h2 : k = "repository"
    · simp [h2]
    · simp [h1, h2]

theorem scenario_factories (k : String) (_ : scenarioRegistry.collectorState k = some true) :
    ∃ fac, scenarioRegistry.factories k = some fac ∧ ∀ i, ∃ c, fac i = .ok c := by
  by_cases h1 : k = "foo"
  · exact ⟨freshFactory, by simp [scenarioRegistry, registerCollector, h1], fun i => ⟨_, rfl⟩⟩
  · by_cases h2 : k = "repository"
    · exact ⟨freshFactory, by simp [scenarioRegistry, registerCollector, h2], fun i => ⟨_, rfl⟩⟩
    · rename_i h
      simp [scenarioRegistry, registerCollector, Registry.initial, h1, h2] at h

/-- Witness of C2 on the registry `{repository: enabled, foo: disabled}`:
`resolve([])` and `resolve(["repository"])` both return exactly
`{repository}`. -/
theorem resolve_key_set_witness :
    (∃ nc st', NewGitLabCollector scenarioRegistry ["foo", "repository"] [] = (.ok nc, st') ∧
      (mapKeys nc.Collectors).Nodup ∧
      (([] : List String) = [] →
        ∀ k, k ∈ mapKeys nc.Collectors ↔ scenarioRegistry.collectorState k = some true) ∧
      (([] : List String) ≠ [] → ∀ k, k ∈ mapKeys nc.Collectors ↔ k ∈ ([] : List String))) ∧
    (∃ nc, (NewGitLabCollector scenarioRegistry ["foo", "repository"] []).1 = .ok nc ∧
      mapKeys nc.Collectors = ["repository"]) ∧
    (∃ nc, (NewGitLabCollector scenarioRegistry ["foo", "repository"] ["repository"]).1 = .ok nc ∧
      mapKeys nc.Collectors = ["repository"]) :=
  ⟨resolve_key_set scenarioRegistry ["foo", "repository"] [] scenario_rangeOrder
      (by simp) (fun k h _ _ => scenario_factories k h),
   ⟨_, rfl, by decide⟩, ⟨_, rfl, by decide⟩⟩

/-! ### Memoization -/

theorem invocationsOf_append (name key : String) (b : Bool) (log : List (String × Bool)) :
    invocationsOf name (log ++ [(key, b)]) =
      invocationsOf name log ++ (if key = name then [b] else []) := by
  by_cases h : key = name <;> simp [invocationsOf, List.filter_append, List.filter_cons, h]

theorem LogInv_failure (st : Registry) (key : String) (h : LogInv st)
    (hcache : st.initiatedCollectors key = none) :
    LogInv { st with factoryLog := st.factoryLog ++ [(key, false)] } := by
  intro name
  simp only [invocationsOf_append]
  by_cases hk : key = name
  · subst hk
    simp only [if_true]
    have hall := (h key).1 hcache
    refine ⟨fun _ b hb => ?_, fun b hb => ?_⟩
    · rcases List.mem_append.mp hb with hb | hb
      · exact hall b hb
      · simpa using hb
    · rw [List.dropLast_concat] at hb
      exact hall b hb
  · simp only [hk, if_false, List.append_nil]
    exact h name

theorem LogInv_success (st : Registry) (key : String) (c : Collector) (h : LogInv st)
    (hcache : st.initiatedCollectors key = none) :
    LogInv { st with
      initiatedCollectors := fun k => if k = key then some c else st.initiatedCollectors k
      factoryLog := st.factoryLog ++ [(key, true)] } := by
  intro name
  simp only [invocationsOf_append]
  by_cases hk : key = name
  · subst hk
    simp only [if_true]
    have hall := (h key).1 hcache
    refine ⟨fun hn => by simp at hn, fun b hb => ?_⟩
    rw [List.dropLast_concat] at hb
    exact hall b hb
  · have hk' : ¬ name = key := fun e => hk e.symm
    simp only [hk, hk', if_false, List.append_nil]
    exact h name

theorem buildCollectors_inv (f : List (String × Bool)) :
    ∀ (keys : List String) (cols : List (String × Collector)) (st : Registry),
      LogInv st →
      (∀ k c, mapGet cols k = some c → st.initiatedCollectors k = some c) →
      LogInv (buildCollectors f keys cols st).2 ∧
        (∀ k c, st.initiatedCollectors k = some c →
          (buildCollectors f keys cols st).2.initiatedCollectors k = some c) ∧
        ∀ cols', (buildCollectors f keys cols st).1 = .ok cols' →
          ∀ k c, mapGet cols' k = some c →
            (buildCollectors f keys cols st).2.initiatedCollectors k = some c := by
  intro keys
  induction keys with
  | nil =>
    intro cols st hinv hcols
    refine ⟨hinv, fun _ _ h => h, ?_⟩
    intro cols' h k c hget
    simp only [buildCollectors, Except.ok.injEq] at h
    subst h
    exact hcols k c hget
  | cons key rest ih =>
    intro cols st hinv hcols
    cases hcs : st.collectorState key with
    | none =>
      simp only [buildCollectors, hcs]
      exact ih cols st hinv hcols
    | some enabled =>
      by_cases hskip : (!enabled || (decide (f.length > 0) && !filterHas f key)) = true
      · simp only [buildCollectors, hcs, hskip, if_true]
        exact ih cols st hinv hcols
      · cases hcache : st.initiatedCollectors key with
        | some c =>
          simp only [buildCollectors, hcs, hskip, hcache]
          refine ih (mapSet cols key c) st hinv ?_
          intro k c' hget
          rw [mapGet_mapSet] at hget
          by_cases hk : k = key
          · simp only [hk, if_true, Option.some.injEq] at hget
            rw [hk, hcache, hget]
          · simp only [hk, if_false] at hget
            exact hcols k c' hget
        | none =>
          cases hfk : st.factories key with
          | none =>
            simp only [buildCollectors, hcs, hskip, hcache, hfk]
            exact ⟨hinv, fun _ _ h => h, fun _ h => by simp at h⟩
          | some fac =>
            cases hc : fac st.factoryLog.length with
            | error err =>
              simp only [buildCollectors, hcs, hskip, hcache, hfk, hc]
              exact ⟨LogInv_failure st key hinv hcache, fun _ _ h => h, fun _ h => by simp at h⟩
            | ok c =>
              simp only [buildCollectors, hcs, hskip, hcache, hfk, hc]
              have hstep := ih (mapSet cols key c)
                { st with
                  initiatedCollectors := fun k =>
                    if k = key then some c else st.initiatedCollectors k
                  factoryLog := st.factoryLog ++ [(key, true)] }
                (LogInv_success st key c hinv hcache)
                (by
                  intro k c' hget
                  rw [mapGet_mapSet] at hget
                  by_cases hk : k = key
                  · simp only [hk, if_true, Option.some.injEq] at hget
                    simp [hk, hget]
                  · simp only [hk, if_false] at hget ⊢
                    exact hcols k c' hget)
              refine ⟨hstep.1, ?_, hstep.2.2⟩
              intro k c' hk
              apply hstep.2.1
              by_cases hkk : k = key
              · rw [hkk, hcache] at hk
                cases hk
              · simp only [hkk, if_false]
                exact hk

theorem NewGitLabCollector_inv (st : Registry) (order filters : List String) (hinv : LogInv st) :
    LogInv (NewGitLabCollector st order filters).2 ∧
      (∀ k c, st.initiatedCollectors k = some c →
        (NewGitLabCollector st order filters).2.initiatedCollectors k = some c) ∧
      ∀ nc, (NewGitLabCollector st order filters).1 = .ok nc →
        ∀ k c, mapGet nc.Collectors k = some c →
          (NewGitLabCollector st order filters).2.initiatedCollectors k = some c := by
  cases hf : checkFilters st.collectorState filters [] with
  | error e =>
    simp only [NewGitLabCollector, hf]
    exact ⟨hinv, fun _ _ h => h, fun _ h => by simp at h⟩
  | ok f =>
    have hb := buildCollectors_inv f order [] st hinv (by intro k c h; simp [mapGet] at h)
    rcases hr : buildCollectors f order [] st with ⟨r, st'⟩
    rw [hr] at hb
    cases r with
    | error e =>
      simp only [NewGitLabCollector, hf, hr]
      exact ⟨hb.1, hb.2.1, fun _ h => by simp at h⟩
    | ok cols =>
      simp only [NewGitLabCollector, hf, hr]
      refine ⟨hb.1, hb.2.1, ?_⟩
      intro nc hnc k c hget
      simp only [Except.ok.injEq] at hnc
      subst hnc
      exact hb.2.2 cols rfl k c hget

theorem resolveSeq_inv :
    ∀ (calls : List (List String × List String)) (st : Registry), LogInv st →
      LogInv (resolveSeq st calls).2 ∧
        (∀ k c, st.initiatedCollectors k = some c →
          (resolveSeq st calls).2.initiatedCollectors k = some c) ∧
        ∀ r ∈ (resolveSeq st calls).1, ∀ nc, r = .ok nc →
          ∀ k c, mapGet nc.Collectors k = some c →
            (resolveSeq st calls).2.initiatedCollectors k = some c := by
  intro calls
  induction calls with
  | nil =>
    intro st hinv
    exact ⟨hinv, fun _ _ h => h, fun r hr => by simp [resolveSeq] at hr⟩
  | cons call calls ih =>
    intro st hinv
    obtain ⟨order, filters⟩ := call
    have h1 := NewGitLabCollector_inv st order filters hinv
    have h2 := ih (NewGitLabCollector st order filters).2 h1.1
    simp only [resolveSeq]
    refine ⟨h2.1, fun k c h => h2.2.1 k c (h1.2.1 k c h), ?_⟩
    intro r hr nc hnc k c hget
    rcases List.mem_cons.mp hr with hr | hr
    · subst hr
      exact h2.2.1 k c (h1.2.2 nc hnc k c hget)
    · exact h2.2.2 r hr nc hnc k c hget

theorem count_true_le_one (l : List Bool) (h : ∀ b ∈ l.dropLast, b = false) :
    l.count true ≤ 1 := by
  by_cases hl : l = []
  · simp [hl]
  · rw [← List.dropLast_concat_getLast hl, List.count_append]
    have h0 : l.dropLast.count true = 0 := by
      rw [List.count_eq_zero]
      intro hmem
      exact absurd (h true hmem) (by decide)
    rw [h0]
    cases l.getLast hl <;> simp

theorem buildCollectors_preserves (f : List (String × Bool)) (P : Registry → Prop)
    (hfail : ∀ (st : Registry) (key : String), P st → st.initiatedCollectors key = none →
      P { st with factoryLog := st.factoryLog ++ [(key, false)] })
    (hok : ∀ (st : Registry) (key : String) (c : Collector), P st →
      st.initiatedCollectors key = none →
      P { st with
          initiatedCollectors := fun k => if k = key then some c else st.initiatedCollectors k
          factoryLog := st.factoryLog ++ [(key, true)] }) :
    ∀ (keys : List String) (cols : List (String × Collector)) (st : Registry),
      P st → P (buildCollectors f keys cols st).2 := by
  intro keys
  induction keys with
  | nil => intro cols st h; exact h
  | cons key rest ih =>
    intro cols st h
    cases hcs : st.collectorState key with
    | none =>
      simp only [buildCollectors, hcs]
      exact ih cols st h
    | some enabled =>
      by_cases hskip : (!enabled || (decide (f.length > 0) && !filterHas f key)) = true
      · simp only [buildCollectors, hcs, hskip, if_true]
        exact ih cols st h
      · cases hcache : st.initiatedCollectors key with
        | some c =>
          simp only [buildCollectors, hcs, hskip, hcache]
          exact ih _ st h
        | none =>
          cases hfk : st.factories key with
          | none =>
            simp only [buildCollectors, hcs, hskip, hcache, hfk]
            exact h
          | some fac =>
            cases hc : fac st.factoryLog.length with
            | error err =>
              simp only [buildCollectors, hcs, hskip, hcache, hfk, hc]
              exact hfail st key h hcache
            | ok c =>
              simp only [buildCollectors, hcs, hskip, hcache, hfk, hc]
              exact ih _ _ (hok st key c h hcache)

theorem NewGitLabCollector_preserves (P : Registry → Prop)
    (hfail : ∀ (st : Registry) (key : String), P st → st.initiatedCollectors key = none →
      P { st with factoryLog := st.factoryLog ++ [(key, false)] })
    (hok : ∀ (st : Registry) (key : String) (c : Collector), P st →
      st.initiatedCollectors key = none →
      P { st with
          initiatedCollectors := fun k => if k = key then some c else st.initiatedCollectors k
          factoryLog := st.factoryLog ++ [(key, true)] })
    (st : Registry) (order filters : List String) (h : P st) :
    P (NewGitLabCollector st order filters).2 := by
  cases hf : checkFilters st.collectorState filters [] with
  | error e =>
    simp only [NewGitLabCollector, hf]
    exact h
  | ok f =>
    have hb := buildCollectors_preserves f P hfail hok order [] st h
    rcases hr : buildCollectors f order [] st with ⟨r, st'⟩
    rw [hr] at hb
    cases r <;> simp only [NewGitLabCollector, hf, hr] <;> exact hb

theorem resolveSeq_preserves (P : Registry → Prop)
    (hfail : ∀ (st : Registry) (key : String), P st → st.initiatedCollectors key = none →
      P { st with factoryLog := st.factoryLog ++ [(key, false)] })
    (hok : ∀ (st : Registry) (key : String) (c : Collector), P st →
      st.initiatedCollectors key = none →
      P { st with
          initiatedCollectors := fun k => if k = key then some c else st.initiatedCollectors k
          factoryLog := st.factoryLog ++ [(key, true)] }) :
    ∀ (calls : List (List String × List String)) (st : Registry),
      P st → P (resolveSeq st calls).2 := by
  intro calls
  induction calls with
  | nil => intro st h; exact h
  | cons call calls ih =>
    intro st h
    obtain ⟨order, filters⟩ := call
    simp only [resolveSeq]
    exact ih _ (NewGitLabCollector_preserves P hfail hok st order filters h)

theorem invocationsOf_append_ne (name key : String) (b : Bool) (log : List (String × Bool))
    (h : key ≠ name) : invocationsOf name (log ++ [(key, b)]) = invocationsOf name log := by
  rw [invocationsOf_append]
  simp [h]

theorem invocationsOf_append_self (name : String) (b : Bool) (log : List (String × Bool)) :
    invocationsOf name (log ++ [(name, b)]) = invocationsOf name log ++ [b] := by
  rw [invocationsOf_append]
  simp

theorem resolveSeq_not_stored (base : String → Option Collector)
    (calls : List (List String × List String)) (st : Registry)
    (h : ∀ name, base name = none →
      (∀ b ∈ invocationsOf name st.factoryLog, b = false) → st.initiatedCollectors name = none) :
    ∀ name, base name = none →
      (∀ b ∈ invocationsOf name (resolveSeq st calls).2.factoryLog, b = false) →
      (resolveSeq st calls).2.initiatedCollectors name = none := by
  refine resolveSeq_preserves
    (fun s => ∀ name, base name = none →
      (∀ b ∈ invocationsOf name s.factoryLog, b = false) → s.initiatedCollectors name = none)
    ?_ ?_ calls st h
  · intro s key hs _ name hbase hall
    refine hs name hbase (fun b hb => hall b ?_)
    simp only [invocationsOf_append]
    exact List.mem_append_left _ hb
  · intro s key c hs _ name hbase hall
    by_cases hk : key = name
    · subst hk
      have := hall true (by simp [invocationsOf_append_self])
      cases this
    · have hk' : ¬ name = key := fun e => hk e.symm
      simp only [hk', if_false]
      refine hs name hbase (fun b hb => hall b ?_)
      simp only [invocationsOf_append_ne name key true s.factoryLog hk]
      exact hb

theorem buildCollectors_cached_quiet (f : List (String × Bool)) (key : String) (c : Collector)
    (keys : List String) (cols : List (String × Collector)) (st : Registry)
    (h : st.initiatedCollectors key = some c) :
    invocationsOf key (buildCollectors f keys cols st).2.factoryLog =
      invocationsOf key st.factoryLog := by
  have hP := buildCollectors_preserves f
    (fun s => s.initiatedCollectors key = some c ∧
      invocationsOf key s.factoryLog = invocationsOf key st.factoryLog)
    ?_ ?_ keys cols st ⟨h, rfl⟩
  · exact hP.2
  · intro s k hs hk
    have hne : k ≠ key := by
      rintro rfl
      rw [hs.1] at hk
      cases hk
    exact ⟨hs.1, by simp only [invocationsOf_append_ne key k false s.factoryLog hne]; exact hs.2⟩
  · intro s k c' hs hk
    have hne : k ≠ key := by
      rintro rfl
      rw [hs.1] at hk
      cases hk
    have hne' : ¬ key = k := fun e => hne e.symm
    refine ⟨by simp only [hne', if_false]; exact hs.1, ?_⟩
    simp only [invocationsOf_append_ne key k true s.factoryLog hne]
    exact hs.2

theorem buildCollectors_invokes (f : List (String × Bool)) (key : String) :
    ∀ (keys : List String) (cols : List (String × Collector)) (st : Registry),
      key ∈ keys → st.collectorState key = some true →
      (f.length = 0 ∨ filterHas f key = true) →
      st.initiatedCollectors key = none → st.factories key ≠ none →
      InvokedOnce key st (buildCollectors f keys cols st) ∨
        EndsOnOther key (buildCollectors f keys cols st) := by
  intro keys
  induction keys with
  | nil => intro cols st hmem; simp at hmem
  | cons k rest ih =>
    intro cols st hmem hcs hsel hcache hfac
    have hnoskip : (!true || (decide (f.length > 0) && !filterHas f key)) = false := by
      rcases hsel with h0 | h1
      · simp [h0]
      · simp [h1]
    by_cases hk : k = key
    · subst hk
      obtain ⟨fac, hfk⟩ := Option.ne_none_iff_exists'.mp hfac
      cases hc : fac st.factoryLog.length with
      | error err =>
        left
        simp only [buildCollectors, hcs, hnoskip, hcache, hfk, hc, Bool.false_eq_true, if_false]
        exact ⟨false, invocationsOf_append_self k false st.factoryLog⟩
      | ok c =>
        left
        simp only [buildCollectors, hcs, hnoskip, hcache, hfk, hc, Bool.false_eq_true, if_false]
        refine ⟨true, ?_⟩
        rw [buildCollectors_cached_quiet f k c rest _ _ (by simp)]
        exact invocationsOf_append_self k true st.factoryLog
    · have hrest : key ∈ rest := by
        rcases List.mem_cons.mp hmem with h | h
        · exact absurd h.symm hk
        · exact h
      cases hcsk : st.collectorState k with
      | none =>
        simp only [buildCollectors, hcsk]
        exact ih cols st hrest hcs hsel hcache hfac
      | some enabled =>
        by_cases hskip : (!enabled || (decide (f.length > 0) && !filterHas f k)) = true
        · simp only [buildCollectors, hcsk, hskip, if_true]
          exact ih cols st hrest hcs hsel hcache hfac
        · cases hck : st.initiatedCollectors k with
          | some c =>
            simp only [buildCollectors, hcsk, hskip, hck]
            exact ih _ st hrest hcs hsel hcache hfac
          | none =>
            cases hfk : st.factories k with
            | none =>
              right
              simp only [buildCollectors, hcsk, hskip, hck, hfk]
              exact ⟨k, hk, Or.inl rfl⟩
            | some fac =>
              cases hc : fac st.factoryLog.length with
              | error err =>
                right
                simp only [buildCollectors, hcsk, hskip, hck, hfk, hc]
                exact ⟨k, hk, Or.inr ⟨err, st.factoryLog, rfl, rfl⟩⟩
              | ok c =>
                simp only [buildCollectors, hcsk, hskip, hck, hfk, hc]
                have hkey : ¬ key = k := fun e => hk e.symm
                have hstep := ih (mapSet cols k c)
                  { st with
                    initiatedCollectors := fun x =>
                      if x = k then some c else st.initiatedCollectors x
                    factoryLog := st.factoryLog ++ [(k, true)] }
                  hrest hcs hsel (by simp only [hkey, if_false]; exact hcache) hfac
                rcases hstep with ⟨b, hb⟩ | hother
                · left
                  simp only [invocationsOf_append_ne key k true st.factoryLog hk] at hb
                  exact ⟨b, hb⟩
                · exact Or.inr hother

theorem NewGitLabCollector_invokes (st : Registry) (order filters : List String) (key : String)
    (hfilters : ∀ n ∈ filters, st.collectorState n = some true)
    (hmem : key ∈ order) (hcs : st.collectorState key = some true)
    (hsel : filters = [] ∨ key ∈ filters)
    (hcache : st.initiatedCollectors key = none) (hfac : st.factories key ≠ none) :
    InvokedOnce key st (NewGitLabCollector st order filters) ∨
      EndsOnOther key (NewGitLabCollector st order filters) := by
  obtain ⟨f, hf, hfm, hlen⟩ := checkFilters_ok st.collectorState filters [] hfilters
  have hsel' : f.length = 0 ∨ filterHas f key = true := by
    rcases hsel with h | h
    · left
      subst h
      simp only [checkFilters, Except.ok.injEq] at hf
      rw [← hf]
      rfl
    · exact Or.inr ((hfm key).mpr (Or.inr h))
  have hb := buildCollectors_invokes f key order [] st hmem hcs hsel' hcache hfac
  rcases hr : buildCollectors f order [] st with ⟨r, st'⟩
  rw [hr] at hb
  cases r with
  | error e =>
    simp only [NewGitLabCollector, hf, hr]
    rcases hb with hb | ⟨k, hk, hb⟩
    · exact Or.inl hb
    · right
      refine ⟨k, hk, ?_⟩
      rcases hb with hb | ⟨msg, log, h1, h2⟩
      · left
        simp only [Except.error.injEq] at hb
        rw [hb]
      · right
        simp only [Except.error.injEq] at h1
        exact ⟨msg, log, by rw [h1], h2⟩
  | ok cols =>
    simp only [NewGitLabCollector, hf, hr]
    rcases hb with hb | ⟨k, hk, hb⟩
    · exact Or.inl hb
    · exfalso
      rcases hb with hb | ⟨msg, log, h1, _⟩
      · cases hb
      · cases h1

/-- C3, as stated, fails: with a factory that returns an error, two calls of
`NewGitLabCollector` invoke the factory of `repository` twice. -/
theorem failing_factory_invoked_twice :
    ¬ ((invocationsOf "repository"
        (resolveSeq failingRegistry
          [(["repository"], []), (["repository"], [])]).2.factoryLog).length ≤ 1) := by
  decide

/-- C3, amended: over any sequence of calls of `NewGitLabCollector`, any two
calls that both return a collector for the same name return the identical
instance, the one stored in `initiatedCollectors`; counting from the start of
the sequence, every invocation of the factory of a name except the last one
returned an error, so the factory of a name succeeds at most once and is not
invoked again after it has succeeded; a factory error is not stored: after the
sequence a name is absent from the cache exactly when it was absent before and
every invocation of its factory returned an error; and in any state a call that
needs a name absent from the cache (enabled, visited, selected by a valid
filter list, its factory registered) invokes the factory of that name exactly
once, unless the call ends on the factory of another name. -/
theorem memoized_instances (st : Registry) (calls : List (List String × List String))
    (hlog : st.factoryLog = []) :
    (∀ r₁ ∈ (resolveSeq st calls).1, ∀ r₂ ∈ (resolveSeq st calls).1,
      ∀ (nc₁ nc₂ : GitLabCollector) (name : String) (c₁ c₂ : Collector),
        r₁ = .ok nc₁ → r₂ = .ok nc₂ →
        mapGet nc₁.Collectors name = some c₁ → mapGet nc₂.Collectors name = some c₂ →
          c₁ = c₂ ∧ (resolveSeq st calls).2.initiatedCollectors name = some c₁) ∧
      (∀ name, ∀ b ∈ (invocationsOf name (resolveSeq st calls).2.factoryLog).dropLast,
        b = false) ∧
      (∀ name, (invocationsOf name (resolveSeq st calls).2.factoryLog).count true ≤ 1) ∧
      (∀ name, (resolveSeq st calls).2.initiatedCollectors name = none ↔
        st.initiatedCollectors name = none ∧
          ∀ b ∈ invocationsOf name (resolveSeq st calls).2.factoryLog, b = false) ∧
      ∀ (s : Registry) (order filters : List String) (key : String),
        (∀ n ∈ filters, s.collectorState n = some true) → key ∈ order →
        s.collectorState key = some true → (filters = [] ∨ key ∈ filters) →
        s.initiatedCollectors key = none → s.factories key ≠ none →
          InvokedOnce key s (NewGitLabCollector s order filters) ∨
            EndsOnOther key (NewGitLabCollector s order filters) := by
  have hinv : LogInv st := by
    intro name
    simp [hlog, invocationsOf]
  have h := resolveSeq_inv calls st hinv
  refine ⟨?_, fun name => (h.1 name).2, fun name => count_true_le_one _ (h.1 name).2, ?_, ?_⟩
  · intro r₁ hr₁ r₂ hr₂ nc₁ nc₂ name c₁ c₂ e₁ e₂ g₁ g₂
    have a₁ := h.2.2 r₁ hr₁ nc₁ e₁ name c₁ g₁
    have a₂ := h.2.2 r₂ hr₂ nc₂ e₂ name c₂ g₂
    rw [a₁] at a₂
    exact ⟨Option.some.inj a₂, a₁⟩
  · intro name
    constructor
    · intro hnone
      refine ⟨?_, (h.1 name).1 hnone⟩
      cases hst : st.initiatedCollectors name with
      | none => rfl
      | some c =>
        rw [h.2.1 name c hst] at hnone
        cases hnone
    · rintro ⟨hbase, hall⟩
      exact resolveSeq_not_stored st.initiatedCollectors calls st (fun _ _ _ => by assumption)
        name hbase hall
  · intro s order filters key hfilters hmem hcs hsel hcache hfac
    exact NewGitLabCollector_invokes s order filters key hfilters hmem hcs hsel hcache hfac

/-- Witness of the amended C3: the first construction fails and is not stored,
the second call invokes the factory again, the second and third calls return
the same instance, built by that second invocation. -/
theorem memoized_instances_witness :
    flakyRegistry.factoryLog = [] ∧
      (resolveSeq flakyRegistry threeCalls).1 =
        [.error (.factoryError "boom"),
         .ok { Collectors := [("repository", sampleInstance 1)] },
         .ok { Collectors := [("repository", sampleInstance 1)] }] ∧
      (resolveSeq flakyRegistry threeCalls).2.factoryLog =
        [("repository", false), ("repository", true)] ∧
      (NewGitLabCollector flakyRegistry ["repository"] []).2.initiatedCollectors "repository"
        = none ∧
      (∀ name, (invocationsOf name (resolveSeq flakyRegistry threeCalls).2.factoryLog).count true
        ≤ 1) ∧
      (InvokedOnce "repository" (NewGitLabCollector flakyRegistry ["repository"] []).2
          (NewGitLabCollector (NewGitLabCollector flakyRegistry ["repository"] []).2
            ["repository"] ["repository"]) ∨
        EndsOnOther "repository"
          (NewGitLabCollector (NewGitLabCollector flakyRegistry ["repository"] []).2
            ["repository"] ["repository"])) :=
  ⟨rfl, rfl, by decide, by decide,
   (memoized_instances flakyRegistry threeCalls rfl).2.2.1,
   (memoized_instances flakyRegistry threeCalls rfl).2.2.2.2
     (NewGitLabCollector flakyRegistry ["repository"] []).2 ["repository"] ["repository"]
     "repository" (by decide) (by decide) (by decide) (by decide) (by decide)
     (fun h => Option.noConfusion h)⟩

/-! ## Theorems: scheduling -/

theorem stepThread_perm {α : Type} :
    ∀ (i : Nat) (ts ts' : List (List α)) (x : α),
      stepThread i ts = some (x, ts') → ts.flatten.Perm (x :: ts'.flatten) := by
  intro i
  induction i with
  | zero =>
    intro ts ts' x h
    match ts, h with
    | (y :: t) :: rest, h =>
      simp only [stepThread, Option.some.injEq, Prod.mk.injEq] at h
      obtain ⟨rfl, rfl⟩ := h
      simp
  | succ i ih =>
    intro ts ts' x h
    match ts, h with
    | t :: rest, h =>
      simp only [stepThread, Option.map_eq_some'] at h
      obtain ⟨⟨y, rest'⟩, hstep, heq⟩ := h
      simp only [Prod.mk.injEq] at heq
      obtain ⟨rfl, rfl⟩ := heq
      have := ih rest rest' y hstep
      simp only [List.flatten_cons]
      exact (List.Perm.append_left t this).trans List.perm_middle

theorem runSchedule_perm {α : Type} :
    ∀ (sched : List Nat) (threads : List (List α)),
      (runSchedule sched threads).Perm threads.flatten := by
  intro sched
  induction sched with
  | nil => intro threads; simp [runSchedule]
  | cons i sched ih =>
    intro threads
    simp only [runSchedule]
    cases h : stepThread i threads with
    | none => exact ih threads
    | some r =>
      obtain ⟨x, threads'⟩ := r
      exact ((ih threads').cons x).trans (stepThread_perm i threads threads' x h).symm

/-! ## Theorems: orchestrator -/

/-- C4: after the samples of `c.Update`, `execute` writes exactly two further
samples, both labelled by `name` alone: the scrape duration and then the scrape
success, whose value is 1 when `Update` returned nil and 0 when it returned any
error, `ErrNoData` included; the value is never anything but 0 or 1. -/
theorem execute_writes_duration_then_success (name : String) (c : Collector) (duration : Int) :
    (execute name c duration).1 =
        c.Update.1 ++
          [{ desc := scrapeDurationDesc, value := .seconds duration, labels := [name] },
           { desc := scrapeSuccessDesc,
             value := .ofInt (match c.Update.2 with | none => 1 | some _ => 0),
             labels := [name] }] ∧
      (∀ (addr : Nat) (samples : List Metric),
        (execute name { addr := addr, Update := (samples, some ErrNoData) } duration).1 =
          samples ++
            [{ desc := scrapeDurationDesc, value := .seconds duration, labels := [name] },
             { desc := scrapeSuccessDesc, value := .ofInt 0, labels := [name] }]) ∧
      ((match c.Update.2 with | none => (1 : Int) | some _ => 0) = 0 ∨
        (match c.Update.2 with | none => (1 : Int) | some _ => 0) = 1) := by
  obtain ⟨addr, samples, err⟩ := c
  refine ⟨?_, ?_, ?_⟩
  · cases err with
    | none => simp [execute, executeOutcome]
    | some e => by_cases h : IsNoDataError e = true <;> simp [execute, executeOutcome, h]
  · intro a ss
    simp [execute, executeOutcome, IsNoDataError]
  · cases err <;> simp

/-- Witness of C4: a collector that writes one sample and returns `ErrNoData`. -/
theorem execute_writes_duration_then_success_witness :
    (execute "repository"
        { addr := 0,
          Update := ([{ desc := "m", value := .ofInt 7, labels := [] }], some ErrNoData) } 5).1 =
      [{ desc := "m", value := .ofInt 7, labels := [] },
       { desc := scrapeDurationDesc, value := .seconds 5, labels := ["repository"] },
       { desc := scrapeSuccessDesc, value := .ofInt 0, labels := ["repository"] }] :=
  (execute_writes_duration_then_success "repository"
    { addr := 0,
      Update := ([{ desc := "m", value := .ofInt 7, labels := [] }], some ErrNoData) } 5).1

/-- C5, as stated, fails: the record logged for `ErrNoData` does not have a
strictly lower severity than the record logged for another error. -/
theorem nodata_severity_not_lower :
    ¬ ((execute "repository" { addr := 0, Update := ([], some ErrNoData) } 5).2.level.severity <
        (execute "repository"
          { addr := 0, Update := ([], some (.other "boom")) } 5).2.level.severity) := by
  decide

/-- C5, amended: the record logged when `Update` returns `ErrNoData` has the
same severity (debug) as the record logged when it returns any other error, not
a strictly lower one.  The two records are the ones given here: they differ in
their message and in the key of their duration attribute. -/
theorem nodata_severity_equal (name : String) (c₁ c₂ : Collector) (d₁ d₂ : Int) (e : GoError)
    (h₁ : c₁.Update.2 = some ErrNoData) (h₂ : c₂.Update.2 = some e) (he : e ≠ ErrNoData) :
    (execute name c₁ d₁).2 =
        { level := .debug, msg := "collector returned no data",
          attrs := [("name", .str name), ("duration_seconds", .seconds d₁),
                    ("err", .err ErrNoData)] } ∧
      (execute name c₂ d₂).2 =
        { level := .debug, msg := "collector failed",
          attrs := [("name", .str name), ("duration_secionds", .seconds d₂),
                    ("err", .err e)] } ∧
      (execute name c₁ d₁).2.level.severity = (execute name c₂ d₂).2.level.severity := by
  obtain ⟨a₁, s₁, e₁⟩ := c₁
  obtain ⟨a₂, s₂, e₂⟩ := c₂
  simp only at h₁ h₂
  subst h₁ h₂
  simp [execute, executeOutcome, IsNoDataError, he]

/-- Witness of the amended C5. -/
theorem nodata_severity_equal_witness :
    (execute "repository" { addr := 0, Update := ([], some ErrNoData) } 5).2 =
        { level := .debug, msg := "collector returned no data",
          attrs := [("name", .str "repository"), ("duration_seconds", .seconds 5),
                    ("err", .err ErrNoData)] } ∧
      (execute "repository" { addr := 1, Update := ([], some (.other "boom")) } 6).2 =
        { level := .debug, msg := "collector failed",
          attrs := [("name", .str "repository"), ("duration_secionds", .seconds 6),
                    ("err", .err (.other "boom"))] } ∧
      (execute "repository" { addr := 0, Update := ([], some ErrNoData) } 5).2.level.severity =
        (execute "repository"
          { addr := 1, Update := ([], some (.other "boom")) } 6).2.level.severity :=
  nodata_severity_equal "repository" { addr := 0, Update := ([], some ErrNoData) }
    { addr := 1, Update := ([], some (.other "boom")) } 5 6 (.other "boom") rfl rfl (by decide)

theorem execute_samples_eq (name : String) (c : Collector) (duration : Int) :
    (execute name c duration).1 =
      c.Update.1 ++
        [durationSample name duration,
         successSample name (match c.Update.2 with | none => 1 | some _ => 0)] := by
  obtain ⟨addr, samples, err⟩ := c
  cases err with
  | none => simp [execute, executeOutcome, durationSample, successSample]
  | some e =>
    by_cases h : IsNoDataError e = true <;>
      simp [execute, executeOutcome, h, durationSample, successSample]

theorem execute_samples_multiset (name : String) (c : Collector) (duration : Int) :
    (((execute name c duration).1 : List Metric) : Multiset Metric) = ownAndMeta name c duration := by
  have hpair : ∀ x y : Metric, ({x, y} : Multiset Metric) = (([x, y] : List Metric) : Multiset Metric) :=
    fun _ _ => rfl
  have h := (execute_samples_eq name c duration)
  rw [h, ownAndMeta, hpair, Multiset.coe_add]
  cases c.Update.2 <;> rfl

theorem flatten_map_multiset {α β : Type} (f : α → List β) (g : α → Multiset β)
    (hfg : ∀ a, ((f a : List β) : Multiset β) = g a) :
    ∀ l : List α, (((l.map f).flatten : List β) : Multiset β) = (l.map g).sum := by
  intro l
  induction l with
  | nil => simp
  | cons a l ih =>
    simp only [List.map_cons, List.flatten_cons, List.sum_cons]
    rw [← Multiset.coe_add, ih, hfg]

theorem collect_multiset (n : GitLabCollector) (elapsed : String → Int) (sched : List Nat) :
    ((Collect n elapsed sched : List Metric) : Multiset Metric) =
      (n.Collectors.map (fun nc => ownAndMeta nc.1 nc.2 (elapsed nc.1))).sum := by
  have hperm := runSchedule_perm sched (collectThreads n elapsed)
  rw [Collect, Multiset.coe_eq_coe.mpr hperm, collectThreads]
  exact flatten_map_multiset (fun nc : String × Collector => (execute nc.1 nc.2 (elapsed nc.1)).1)
    (fun nc => ownAndMeta nc.1 nc.2 (elapsed nc.1))
    (fun nc => execute_samples_multiset nc.1 nc.2 (elapsed nc.1)) n.Collectors

theorem ownAndMeta_le_collect (n : GitLabCollector) (elapsed : String → Int) (sched : List Nat)
    (name : String) (c : Collector) (h : (name, c) ∈ n.Collectors) :
    ownAndMeta name c (elapsed name) ≤ ((Collect n elapsed sched : List Metric) : Multiset Metric) := by
  rw [collect_multiset]
  apply List.single_le_sum
  · intro x _
    exact Multiset.zero_le x
  · exact List.mem_map.mpr ⟨(name, c), h, rfl⟩

/-- C6: whatever the scheduling of the goroutines, the multiset of samples
written by `Collect` is the union, over the collectors of the set, of the own
samples of each and its two meta-metrics; so with a collector `A` whose
`Update` returns an error and a collector `B` whose `Update` returns nil, the
output contains every sample written by `B`, the sample success=0 labelled `A`
and the sample success=1 labelled `B`. -/
theorem collect_isolates_collectors (n : GitLabCollector) (elapsed : String → Int)
    (sched : List Nat) :
    ((Collect n elapsed sched : List Metric) : Multiset Metric) =
        (n.Collectors.map (fun nc => ownAndMeta nc.1 nc.2 (elapsed nc.1))).sum ∧
      ∀ (a b : String) (A B : Collector) (e : GoError),
        (a, A) ∈ n.Collectors → (b, B) ∈ n.Collectors →
        A.Update.2 = some e → B.Update.2 = none →
          (B.Update.1 : Multiset Metric) ≤
              ((Collect n elapsed sched : List Metric) : Multiset Metric) ∧
            successSample a 0 ∈ Collect n elapsed sched ∧
            successSample b 1 ∈ Collect n elapsed sched := by
  refine ⟨collect_multiset n elapsed sched, ?_⟩
  intro a b A B e hA hB heA heB
  have hlA := ownAndMeta_le_collect n elapsed sched a A hA
  have hlB := ownAndMeta_le_collect n elapsed sched b B hB
  refine ⟨?_, ?_, ?_⟩
  · refine le_trans ?_ hlB
    simp only [ownAndMeta]
    exact Multiset.le_add_right _ _
  · have hmem : successSample a 0 ∈ ownAndMeta a A (elapsed a) := by
      simp [ownAndMeta, heA]
    exact Multiset.mem_coe.mp (Multiset.mem_of_le hlA hmem)
  · have hmem : successSample b 1 ∈ ownAndMeta b B (elapsed b) := by
      simp [ownAndMeta, heB]
    exact Multiset.mem_coe.mp (Multiset.mem_of_le hlB hmem)

/-- Witness of C6: collector `a` writes one sample and fails, collector `b`
writes one sample and succeeds; the schedule lets `b` send first. -/
theorem collect_isolates_collectors_witness :
    (({ desc := "y", value := .ofInt 2, labels := [] } : Metric) ∈
        Collect { Collectors :=
          [("a", { addr := 0,
                   Update := ([{ desc := "x", value := .ofInt 1, labels := [] }],
                     some (.other "boom")) }),
           ("b", { addr := 1,
                   Update := ([{ desc := "y", value := .ofInt 2, labels := [] }], none) })] }
          (fun _ => 5) [1, 0, 1]) ∧
      successSample "a" 0 ∈
        Collect { Collectors :=
          [("a", { addr := 0,
                   Update := ([{ desc := "x", value := .ofInt 1, labels := [] }],
                     some (.other "boom")) }),
           ("b", { addr := 1,
                   Update := ([{ desc := "y", value := .ofInt 2, labels := [] }], none) })] }
          (fun _ => 5) [1, 0, 1] ∧
      successSample "b" 1 ∈
        Collect { Collectors :=
          [("a", { addr := 0,
                   Update := ([{ desc := "x", value := .ofInt 1, labels := [] }],
                     some (.other "boom")) }),
           ("b", { addr := 1,
                   Update := ([{ desc := "y", value := .ofInt 2, labels := [] }], none) })] }
          (fun _ => 5) [1, 0, 1] := by
  have h := (collect_isolates_collectors
    { Collectors :=
        [("a", { addr := 0,
                 Update := ([{ desc := "x", value := .ofInt 1, labels := [] }],
                   some (.other "boom")) }),
         ("b", { addr := 1,
                 Update := ([{ desc := "y", value := .ofInt 2, labels := [] }], none) })] }
    (fun _ => 5) [1, 0, 1]).2 "a" "b" _ _ (.other "boom")
    (List.mem_cons_self _ _) (List.mem_cons_of_mem _ (List.mem_cons_self _ _)) rfl rfl
  exact ⟨Multiset.mem_coe.mp (Multiset.mem_of_le h.1 (by simp)), h.2.1, h.2.2⟩

/-! ## Theorems: repository collector -/

theorem countMergeRequests_eq (lastHour : Int) :
    ∀ (mrs : List MergeRequest) (c m cl : Nat),
      countMergeRequests lastHour mrs (c, m, cl) =
        (c + mrs.countP (createdInWindow lastHour),
         m + mrs.countP (mergedInWindow lastHour),
         cl + mrs.countP (closedInWindow lastHour)) := by
  intro mrs
  induction mrs with
  | nil => intro c m cl; simp [countMergeRequests]
  | cons mr mrs ih =>
    intro c m cl
    obtain ⟨created, merged, closed⟩ := mr
    simp only [countMergeRequests, ih, List.countP_cons, createdInWindow, mergedInWindow,
      closedInWindow, After]
    refine Prod.ext ?_ (Prod.ext ?_ ?_)
    · simp only
      split <;> simp_all
      all_goals omega
    · simp only
      cases merged with
      | none => simp
      | some t =>
        simp only
        split <;> simp_all
        all_goals omega
    · simp only
      cases closed with
      | none => simp
      | some t =>
        simp only
        split <;> simp_all
        all_goals omega

theorem processProject_eq (remote : Remote) (now lastHour : Int) (project : Project)
    (statistics : Statistics) (h : project.Statistics = some statistics) :
    processProject remote now lastHour project =
      some (projectSamples project statistics.RepositorySize
        (orEmpty (remote.listMergeRequests (toString project.ID) lastHour))
        (orEmpty (remote.listCommits (toString project.ID) lastHour now)) lastHour) := by
  simp only [processProject, projectSamples, countMergeRequests_eq, h]
  cases hm : remote.listMergeRequests (toString project.ID) lastHour <;>
    cases hc : remote.listCommits (toString project.ID) lastHour now <;>
    simp [orEmpty]

theorem processProject_samplesOf (remote : Remote) (now : Int) (project : Project)
    (h : project.Statistics ≠ none) :
    processProject remote now (now - hour) project = some (samplesOf remote now project) := by
  cases hs : project.Statistics with
  | none => exact absurd hs h
  | some statistics =>
    rw [processProject_eq remote now (now - hour) project statistics hs]
    simp only [samplesOf, hs]

theorem projectThreads_some (remote : Remote) (now : Int) :
    ∀ projects : List Project, (∀ p ∈ projects, p.Statistics ≠ none) →
      projectThreads remote now (now - hour) projects =
        some (projects.map (samplesOf remote now)) := by
  intro projects
  induction projects with
  | nil => intro _; rfl
  | cons p rest ih =>
    intro h
    have hp := processProject_samplesOf remote now p (h p (List.mem_cons_self _ _))
    have hr := ih (fun q hq => h q (List.mem_cons_of_mem _ hq))
    simp only [projectThreads, hp, hr, List.map_cons]

/-- C7 at the failing input, and on the projects that carry statistics.  A
project that the API returns without statistics makes its goroutine panic at
line 86 before any sample is written, and the run of `Update` ends the process
instead of emitting five samples for it.  For every project with statistics the
goroutine writes exactly the five samples of the claim, each labelled (decimal
id, name, path): size, created, merged, closed and commits, a failed sub-fetch
counting as an empty list; so a request created 30 minutes ago and merged 10
minutes ago adds 1 to created and to merged, and the project of size 1024 with
one request created 20 minutes ago and two commits emits 1024, 1, 0, 0, 2. -/
theorem project_without_statistics_panics :
    processProject bareRemote exampleNow (exampleNow - hour) bareProject = none ∧
      Update exampleLimits bareRemote exampleNow [] [] = .panic ∧
      (∀ (remote : Remote) (now lastHour : Int) (project : Project),
        project.Statistics = none → processProject remote now lastHour project = none) ∧
      (∀ (remote : Remote) (now lastHour : Int) (project : Project) (statistics : Statistics),
        project.Statistics = some statistics →
          processProject remote now lastHour project =
            some (projectSamples project statistics.RepositorySize
              (orEmpty (remote.listMergeRequests (toString project.ID) lastHour))
              (orEmpty (remote.listCommits (toString project.ID) lastHour now)) lastHour)) ∧
      countMergeRequests (exampleNow - hour)
        [{ CreatedAt := exampleNow - 30 * minute, MergedAt := some (exampleNow - 10 * minute),
           ClosedAt := none }] (0, 0, 0) = (1, 1, 0) ∧
      processProject demoRemote exampleNow (exampleNow - hour) demoProject =
        some
          [{ desc := projectSizeDesc, value := .ofInt 1024, labels := ["42", "demo", "demo"] },
           { desc := createdMRDesc, value := .ofInt 1, labels := ["42", "demo", "demo"] },
           { desc := mergedMRDesc, value := .ofInt 0, labels := ["42", "demo", "demo"] },
           { desc := closedMRDesc, value := .ofInt 0, labels := ["42", "demo", "demo"] },
           { desc := commitsDesc, value := .ofInt 2, labels := ["42", "demo", "demo"] }] ∧
      Update exampleLimits demoRemote exampleNow [] [] = .returned none
        [{ desc := projectSizeDesc, value := .ofInt 1024, labels := ["42", "demo", "demo"] },
         { desc := createdMRDesc, value := .ofInt 1, labels := ["42", "demo", "demo"] },
         { desc := mergedMRDesc, value := .ofInt 0, labels := ["42", "demo", "demo"] },
         { desc := closedMRDesc, value := .ofInt 0, labels := ["42", "demo", "demo"] },
         { desc := commitsDesc, value := .ofInt 2, labels := ["42", "demo", "demo"] }] := by
  refine ⟨by decide, by decide, ?_, ?_, by decide, by decide, by decide⟩
  · intro remote now lastHour project h
    simp only [processProject, h]
  · intro remote now lastHour project statistics h
    exact processProject_eq remote now lastHour project statistics h

/-- C8, as stated, fails: a request whose merge time and close time are both
set and after the window start adds 1 to the merged and to the closed counter. -/
theorem merged_and_closed_both_counted :
    ¬ ((countMergeRequests 0
          [{ CreatedAt := 1, MergedAt := some 1, ClosedAt := some 1 }] (0, 0, 0)).2.1 +
        (countMergeRequests 0
          [{ CreatedAt := 1, MergedAt := some 1, ClosedAt := some 1 }] (0, 0, 0)).2.2 ≤ 1) := by
  decide

/-- C8, amended: a request adds 1 to the merged counter exactly when its merge
time is non-null and strictly after the window start, and 1 to the closed
counter exactly when its close time is non-null and strictly after the window
start, independently of each other; it is counted in at most one of the two
exactly when these two conditions do not both hold. -/
theorem merged_closed_independent (lastHour : Int) (mr : MergeRequest) (c m cl : Nat) :
    (countMergeRequests lastHour [mr] (c, m, cl)).2.1 =
        m + (if mergedInWindow lastHour mr then 1 else 0) ∧
      (countMergeRequests lastHour [mr] (c, m, cl)).2.2 =
        cl + (if closedInWindow lastHour mr then 1 else 0) ∧
      (((countMergeRequests lastHour [mr] (c, m, cl)).2.1 - m) +
          ((countMergeRequests lastHour [mr] (c, m, cl)).2.2 - cl) ≤ 1 ↔
        ¬ (mergedInWindow lastHour mr = true ∧ closedInWindow lastHour mr = true)) := by
  rw [countMergeRequests_eq]
  simp only [List.countP_cons, List.countP_nil, Nat.zero_add]
  cases mergedInWindow lastHour mr <;> cases closedInWindow lastHour mr <;> simp

/-- Witness of the amended C8: a request merged in the window and never closed
is counted as merged only. -/
theorem merged_closed_independent_witness :
    (countMergeRequests 0 [{ CreatedAt := 1, MergedAt := some 1, ClosedAt := none }]
        (0, 0, 0)).2.1 = 1 ∧
      (countMergeRequests 0 [{ CreatedAt := 1, MergedAt := some 1, ClosedAt := none }]
        (0, 0, 0)).2.2 = 0 := by
  have h := merged_closed_independent 0
    { CreatedAt := 1, MergedAt := some 1, ClosedAt := none } 0 0 0
  exact ⟨h.1.trans (by decide), h.2.1.trans (by decide)⟩

theorem mem_pagesOf (totalPages page : Int) :
    page ∈ pagesOf totalPages ↔ 1 ≤ page ∧ page ≤ totalPages := by
  simp only [pagesOf, List.mem_map, List.mem_range]
  constructor
  · rintro ⟨i, hi, rfl⟩
    omega
  · rintro ⟨h1, h2⟩
    exact ⟨(page - 1).toNat, by omega, by omega⟩

theorem pageThreads_flatten (remote : Remote) :
    ∀ pages : List Int,
      (pages.map (pageThread remote)).flatten =
        pages.filterMap (fun page =>
          match remote.listProjects page with
          | .ok projects => some projects
          | .error _ => none) := by
  intro pages
  induction pages with
  | nil => rfl
  | cons p pages ih =>
    simp only [List.map_cons, List.flatten_cons, List.filterMap_cons, ih, pageThread]
    cases remote.listProjects p <;> simp

/-- C9, as stated, fails: the probe succeeds and reports 5 pages, with a
negative number of items; `make` panics on the negative capacity and `Update`
does not return. -/
theorem negative_item_count_panics :
    negativeItemsRemote.probe = .ok { TotalPages := 5, TotalItems := -1 } ∧
      Update exampleLimits negativeItemsRemote exampleNow [4, 0, 1] [2, 2, 0] = .panic ∧
      ¬ ∃ samples,
        Update exampleLimits negativeItemsRemote exampleNow [4, 0, 1] [2, 2, 0] =
          .returned none samples := by
  refine ⟨rfl, by decide, ?_⟩
  rintro ⟨samples, h⟩
  have hp : Update exampleLimits negativeItemsRemote exampleNow [4, 0, 1] [2, 2, 0] = .panic := by
    decide
  rw [hp] at h
  cases h

/-- C9, amended: when the probe succeeds with an item count and a page count
that `make` accepts as capacities (non-negative and within the limits of the
machine) and every project of the pages fetched carries statistics, then
whatever the outcomes of the page fetches and the scheduling of the goroutines,
the combined list `allProjects` is a permutation of the concatenation of the
slices of exactly the pages `1..totalPages` whose fetch succeeded, at most
`totalPages` slices are sent on the channel of capacity `totalPages`, and
`Update` returns nil after writing, up to order, the samples of exactly those
projects. -/
theorem page_fan_in_complete (limits : Limits) (remote : Remote) (now : Int)
    (pageSched projSched : List Nat) (resp : Response) (hprobe : remote.probe = .ok resp)
    (hpages : 0 ≤ resp.TotalPages) (hchan : resp.TotalPages ≤ limits.maxChanCap)
    (hitems : 0 ≤ resp.TotalItems) (hslice : resp.TotalItems ≤ limits.maxSliceCap)
    (hstats : ∀ p ∈ (successfulPages remote resp.TotalPages).flatten, p.Statistics ≠ none) :
    (fanIn remote resp.TotalPages pageSched).Perm
        (successfulPages remote resp.TotalPages).flatten ∧
      (∀ page, page ∈ pagesOf resp.TotalPages ↔ 1 ≤ page ∧ page ≤ resp.TotalPages) ∧
      (((pagesOf resp.TotalPages).map (pageThread remote)).flatten.length : Int) ≤
        resp.TotalPages ∧
      ∃ samples, Update limits remote now pageSched projSched = .returned none samples ∧
        samples.Perm
          ((successfulPages remote resp.TotalPages).flatten.flatMap (samplesOf remote now)) := by
  have hfan : (fanIn remote resp.TotalPages pageSched).Perm
      (successfulPages remote resp.TotalPages).flatten := by
    have h := runSchedule_perm pageSched ((pagesOf resp.TotalPages).map (pageThread remote))
    rw [pageThreads_flatten] at h
    exact h.flatten
  refine ⟨hfan, mem_pagesOf resp.TotalPages, ?_, ?_⟩
  · rw [pageThreads_flatten]
    have h := List.length_filterMap_le (fun page =>
          match remote.listProjects page with
          | .ok projects => some projects
          | .error _ => none) (pagesOf resp.TotalPages)
    have hl : (pagesOf resp.TotalPages).length = resp.TotalPages.toNat := by simp [pagesOf]
    omega
  · have h1 : makeAccepts limits.maxSliceCap resp.TotalItems = true := by
      simp [makeAccepts, hitems, hslice]
    have h2 : makeAccepts limits.maxChanCap resp.TotalPages = true := by
      simp [makeAccepts, hpages, hchan]
    have hall : ∀ p ∈ fanIn remote resp.TotalPages pageSched, p.Statistics ≠ none :=
      fun p hp => hstats p (hfan.mem_iff.mp hp)
    have hthreads := projectThreads_some remote now (fanIn remote resp.TotalPages pageSched) hall
    refine ⟨runSchedule projSched
      ((fanIn remote resp.TotalPages pageSched).map (samplesOf remote now)), ?_, ?_⟩
    · simp [Update, hprobe, h1, h2, hthreads]
    · refine (runSchedule_perm projSched _).trans ?_
      rw [← List.flatMap_def]
      exact hfan.flatMap_right _

/-- Witness of the amended C9: five pages, the fetch of page 3 failing: the
combined list holds exactly the projects of pages 1, 2, 4 and 5, and `Update`
returns nil after writing their samples. -/
theorem page_fan_in_complete_witness :
    (successfulPages fivePageRemote 5).flatten =
        [numberedProject 1, numberedProject 2, numberedProject 4, numberedProject 5] ∧
      (fanIn fivePageRemote 5 [4, 0, 1]).Perm
        [numberedProject 1, numberedProject 2, numberedProject 4, numberedProject 5] ∧
      ∃ samples,
        Update exampleLimits fivePageRemote exampleNow [4, 0, 1] [2, 2, 0] =
          .returned none samples ∧
        samples.Perm
          ([numberedProject 1, numberedProject 2, numberedProject 4,
            numberedProject 5].flatMap (samplesOf fivePageRemote exampleNow)) := by
  have hs : (successfulPages fivePageRemote 5).flatten =
      [numberedProject 1, numberedProject 2, numberedProject 4, numberedProject 5] := by decide
  have h := page_fan_in_complete exampleLimits fivePageRemote exampleNow [4, 0, 1] [2, 2, 0]
    { TotalPages := 5, TotalItems := 5 } rfl (by decide) (by decide) (by decide) (by decide)
    (by
      show ∀ p ∈ (successfulPages fivePageRemote 5).flatten, p.Statistics ≠ none
      rw [hs]
      decide)
  exact ⟨hs, hs ▸ h.1, hs ▸ h.2.2.2⟩

/-! ## Theorems: request filtering -/

theorem slicesIndex_spec (v : String) :
    ∀ s : List String, -1 ≤ slicesIndex s v ∧ (slicesIndex s v = -1 ↔ v ∉ s) := by
  intro s
  induction s with
  | nil => simp [slicesIndex]
  | cons x s ih =>
    by_cases hx : x = v
    · subst hx
      simp [slicesIndex]
    · have hx' : ¬ v = x := fun e => hx e.symm
      simp only [slicesIndex, hx, if_false, List.mem_cons, hx', false_or]
      by_cases hi : slicesIndex s v = -1
      · simp only [hi, if_true, true_iff]
        exact ⟨le_refl _, ih.2.mp hi⟩
      · simp only [hi, if_false]
        refine ⟨by omega, ?_⟩
        constructor
        · intro h
          omega
        · intro h
          exact absurd (ih.2.mpr h) hi

theorem mem_excludeFilter (excludes : List String) (c : String) :
    ∀ enabled : List String,
      c ∈ excludeFilter excludes enabled ↔ c ∈ enabled ∧ c ∉ excludes := by
  intro enabled
  induction enabled with
  | nil => simp [excludeFilter]
  | cons a rest ih =>
    by_cases h : slicesIndex excludes a = -1
    · have ha := (slicesIndex_spec a excludes).2.mp h
      simp only [excludeFilter, h, if_true, List.mem_cons, ih]
      constructor
      · rintro (rfl | ⟨h1, h2⟩)
        · exact ⟨Or.inl rfl, ha⟩
        · exact ⟨Or.inr h1, h2⟩
      · rintro ⟨rfl | h1, h2⟩
        · exact Or.inl rfl
        · exact Or.inr ⟨h1, h2⟩
    · have ha : a ∈ excludes := by
        by_contra hn
        exact h ((slicesIndex_spec a excludes).2.mpr hn)
      simp only [excludeFilter, h, if_false, List.mem_cons, ih]
      constructor
      · rintro ⟨h1, h2⟩
        exact ⟨Or.inr h1, h2⟩
      · rintro ⟨rfl | h1, h2⟩
        · exact absurd ha h2
        · exact ⟨h1, h2⟩

/-- C10 at the failing input: the filter list built from `exclude[]` holds
exactly the enabled collectors that are not excluded, but when it comes out
empty `NewGitLabCollector` takes it for an unfiltered request: on the registry
`{repository: enabled, foo: disabled}` the request `exclude[]=repository` runs
the collector `repository`. -/
theorem exclude_every_enabled_runs_all :
    (∀ (excludes enabled : List String) (c : String),
        c ∈ excludeFilter excludes enabled ↔ c ∈ enabled ∧ c ∉ excludes) ∧
      (newHandler scenarioRegistry ["foo", "repository"]).map
          (fun p => p.1.enabledCollectors) = some ["repository"] ∧
      (newHandler scenarioRegistry ["foo", "repository"]).map
          (fun p => (ServeHTTP p.1 p.2 ["foo", "repository"] [] ["repository"]).1.ran) =
        some ["repository"] :=
  ⟨fun excludes enabled c => mem_excludeFilter excludes c enabled, by decide, by decide⟩

end GitlabExporter
